import Mathlib

/-!
Shallow embedding of the data-ingestion / persistence core of `src/app.py`
(a Streamlit migration-inventory dashboard).  The embedding covers:

* `load_and_validate_json`  (schema validator),
* `process_instance_data`   (flattener + ingestion pipeline),
* `create_summary_metrics`  (aggregator),
* the SQLite persistence layer (`save_data_to_db`, `load_data_from_db`,
  `clear_database`, `save_user_table_to_db`, `delete_user_table_from_db`,
  `save_custom_table_to_db`, `load_custom_tables_from_db`,
  `delete_custom_table_from_db`).

Modelling conventions:

* Parsed JSON values are modelled by the inductive `PyVal`; a raw uploaded
  file is modelled at the granularity the code distinguishes (empty bytes,
  malformed JSON, parsed object).
* Python strings are Lean `String`s; `str(value)` is `pyStr`
  (string-escape subtleties of `repr` inside nested containers are elided,
  no claim depends on them).
* `datetime.now()` / `CURRENT_TIMESTAMP` are passed in as an explicit
  `now : Nat` parameter (abstracting the formatted timestamp string).
* Streamlit session-state mutation (`st.session_state.processing_errors`)
  becomes explicit state passing: the error list goes in and comes out.
* The SQLite database is a record of the logical tables; `sqlite3` level
  I/O failures are out of scope, but the "no such table: custom_tables"
  error (that table is only created by `save_custom_table_to_db`, never by
  `init_database`) is modelled by `Option` on the custom-table set.
-/

/-- Python / JSON values as produced by `json.loads`.  A JSON number
with a fraction or exponent parses to a Python float; we carry its
source token (`float "1.5"`) and render `str(value)` as that token,
which is exact precisely when the token is Python's canonical
shortest-repr form of the value (as in `1.5` or `-0.25`);
non-canonical tokens such as `1.50` or `1e5` re-stringify differently
in Python, a binary floating-point representation question outside
this embedding (no theorem below asserts their rendering).
`json.loads` also accepts `NaN` / `Infinity` / `-Infinity`, carried as
the tokens `nan` / `inf` / `-inf`, their `str()` images. -/
inductive PyVal : Type where
  | str (s : String)
  | int (n : Int)
  | float (tok : String)
  | bool (b : Bool)
  | list (xs : List PyVal)
  | dict (kvs : List (String × PyVal))
  | none_
deriving Repr, Inhabited

/-- Dictionary lookup `d[k]` / `d.get(k)`: with duplicate keys
`json.loads` keeps the last occurrence. -/
def pyLookup (kvs : List (String × PyVal)) (k : String) : Option PyVal :=
  (kvs.reverse.find? (fun p => p.1 = k)).map (fun p => p.2)

/-- `k in d` membership test. -/
def pyContains (kvs : List (String × PyVal)) (k : String) : Bool :=
  (pyLookup kvs k).isSome

/-- Decimal digit character for `d < 10`. -/
def digitChar (d : Nat) : Char := Char.ofNat (48 + d)

/-- Fuel-driven decimal digit list of a natural number (most significant
first).  `fuel` bounds the recursion depth; `natChars` below always
supplies enough fuel. -/
def natCharsAux : Nat → Nat → List Char
  | 0, _ => []
  | fuel + 1, n =>
      if n < 10 then [digitChar n]
      else natCharsAux fuel (n / 10) ++ [digitChar (n % 10)]

/-- Decimal digit characters of a natural number, as in Python `str(n)`. -/
def natChars (n : Nat) : List Char := natCharsAux (n + 1) n

/-- Characters of Python `str(i)` for an integer. -/
def intChars (i : Int) : List Char :=
  if i < 0 then '-' :: natChars i.natAbs else natChars i.toNat

/-- Python `str(i)` for an integer. -/
def intStr (i : Int) : String := String.mk (intChars i)

/-- Characters of `', '.join(map(str, l))` for a list of integers. -/
def commaJoinChars : List Int → List Char
  | [] => []
  | [i] => intChars i
  | i :: j :: rest => intChars i ++ ',' :: ' ' :: commaJoinChars (j :: rest)

/-- `', '.join(map(str, l))` for a list of integers (the canonical
serialized `ports` / `pids` representation produced by the flattener). -/
def commaJoin (l : List Int) : String := String.mk (commaJoinChars l)

/-- `', '.join(items)` for a list of already-stringified items. -/
def joinCommaSpace : List String → String
  | [] => ""
  | [s] => s
  | s :: t :: rest => s ++ ", " ++ joinCommaSpace (t :: rest)

/-- A single apostrophe, used by Python `repr` of strings and in the
error message literals of `app.py`. -/
def pyQuote : String := String.mk [Char.ofNat 39]

mutual

/-- Python `repr` of a parsed JSON value (string-escape subtleties are
elided: the strings appearing in this development contain no quotes or
control characters). -/
def pyRepr : PyVal → String
  | .str s => pyQuote ++ s ++ pyQuote
  | .int n => intStr n
  | .float tok => tok
  | .bool true => "True"
  | .bool false => "False"
  | .none_ => "None"
  | .list xs => "[" ++ joinCommaSpace (pyReprList xs) ++ "]"
  | .dict kvs =>
      String.mk [Char.ofNat 123] ++
        joinCommaSpace (pyReprDict kvs) ++ String.mk [Char.ofNat 125]

/-- `repr` of each element of a list. -/
def pyReprList : List PyVal → List String
  | [] => []
  | v :: vs => pyRepr v :: pyReprList vs

/-- `repr` of each `key: value` entry of a dict. -/
def pyReprDict : List (String × PyVal) → List String
  | [] => []
  | (k, v) :: rest => (pyQuote ++ k ++ pyQuote ++ ": " ++ pyRepr v) :: pyReprDict rest

end

/-- Python `str(v)`: identical to `repr` except on strings, which are
returned unquoted. -/
def pyStr : PyVal → String
  | .str s => s
  | v => pyRepr v

/-- The characters stripped by Python `str.strip()` with no argument
(the ASCII whitespace characters; exotic Unicode whitespace is not
exercised by this code base). -/
def isPyWhitespace (c : Char) : Bool :=
  c == ' ' || c == '\t' || c == '\n' || c == '\r' ||
    c == Char.ofNat 11 || c == Char.ofNat 12

/-- `not s.strip()`: true iff stripping whitespace leaves the empty
string, i.e. every character of `s` is whitespace (vacuously for `""`). -/
def pyStripIsEmpty (s : String) : Bool := s.data.all isPyWhitespace

/-- An uploaded file, at the granularity `load_and_validate_json`
distinguishes: empty bytes, bytes that fail `json.loads`, or a parsed
top-level JSON object. -/
inductive FileContent : Type where
  | empty
  | malformed (lineno : Nat) (msg : String)
  | parsed (kvs : List (String × PyVal))

structure UploadedFile where
  name : String
  content : FileContent

def requiredFields : List String := ["instance_id", "instance_name", "applications"]

/-- `isinstance(data[k], str) and data[k].strip()`:
the field is present, is a string, and is not whitespace-only. -/
def strFieldNonEmpty (kvs : List (String × PyVal)) (k : String) : Bool :=
  match pyLookup kvs k with
  | some (.str s) => !(pyStripIsEmpty s)
  | _ => false

/-- The per-application loop of `load_and_validate_json`: each entry must
be an object containing a `name` key; the error message carries the
1-based index of the first offending entry. -/
def checkApplications : List PyVal → Nat → Except String Unit
  | [], _ => .ok ()
  | .dict akvs :: rest, i =>
      if pyContains akvs "name" then checkApplications rest (i + 1)
      else .error ("Application " ++ toString (i + 1) ++ " missing " ++
        pyQuote ++ "name" ++ pyQuote ++ " field")
  | _ :: _, i => .error ("Application " ++ toString (i + 1) ++ " must be an object")

/-- `[field for field in required_fields if field not in data]`. -/
def missingFields (kvs : List (String × PyVal)) : List String :=
  requiredFields.filter (fun k => !(pyContains kvs k))

/-- The validation chain of `load_and_validate_json` on a parsed
document, in source order; each failed check raises `ValueError` with
the message shown. -/
def validate_structure (kvs : List (String × PyVal)) : Except String Unit :=
  if missingFields kvs ≠ [] then
    .error ("Missing required fields: " ++ joinCommaSpace (missingFields kvs))
  else if !(strFieldNonEmpty kvs "instance_id") then
    .error (pyQuote ++ "instance_id" ++ pyQuote ++ " must be a non-empty string")
  else if !(strFieldNonEmpty kvs "instance_name") then
    .error (pyQuote ++ "instance_name" ++ pyQuote ++ " must be a non-empty string")
  else
    match pyLookup kvs "applications" with
    | some (.list apps) =>
        if apps.length = 0 then
          .error (pyQuote ++ "applications" ++ pyQuote ++ " list is empty")
        else checkApplications apps 0
    | _ => .error (pyQuote ++ "applications" ++ pyQuote ++ " must be a list")

/-- `load_and_validate_json`.  A `ValueError` raised inside the `try`
block is re-caught by the generic `except Exception` handler and
re-raised as `"Error processing file: {msg}"`; the `json.JSONDecodeError`
handler fires first for malformed JSON and its message is not re-wrapped.
On success the parsed document is returned unchanged. -/
def load_and_validate_json : FileContent → Except String (List (String × PyVal))
  | .empty => .error "Error processing file: File is empty"
  | .malformed lineno msg =>
      .error ("Invalid JSON format at line " ++ toString lineno ++ ": " ++ msg)
  | .parsed kvs =>
      match validate_structure kvs with
      | .ok _ => .ok kvs
      | .error m => .error ("Error processing file: " ++ m)

/-- One flattened application row (the unit of the combined dataset),
with the eleven columns built in `process_instance_data`. -/
structure AppRow where
  instance_id : String
  instance_name : String
  script_version : String
  app_name : String
  app_type : String
  app_status : String
  app_image : String
  ports : String
  pids : String
  process_name : String
  container_id : String
deriving Repr, DecidableEq, Inhabited

/-- `app.get(k, default)`, tracked through the textual rendering of the
value: every later consumer of a row cell (display, CSV/JSON export,
SQLite TEXT storage) observes exactly this rendering. -/
def pyGetStr (kvs : List (String × PyVal)) (k : String) (default : String) : String :=
  match pyLookup kvs k with
  | some v => pyStr v
  | none => default

/-- `', '.join(map(str, v))`: joins the elements of an iterable value;
iterating a string yields its characters and iterating a dict yields its
keys; non-iterable values raise `TypeError`. -/
def pyJoinIter : PyVal → Except String String
  | .list xs => .ok (joinCommaSpace (xs.map pyStr))
  | .str s => .ok (joinCommaSpace (s.data.map (fun c => String.mk [c])))
  | .dict kvs => .ok (joinCommaSpace (kvs.map (fun p => p.1)))
  | .int _ => .error (pyQuote ++ "int" ++ pyQuote ++ " object is not iterable")
  | .float _ => .error (pyQuote ++ "float" ++ pyQuote ++ " object is not iterable")
  | .bool _ => .error (pyQuote ++ "bool" ++ pyQuote ++ " object is not iterable")
  | .none_ => .error (pyQuote ++ "NoneType" ++ pyQuote ++ " object is not iterable")

/-- The `app_info` dictionary built for one application entry
(`process_instance_data`, lines 250-262).  Only the `ports` / `pids`
joins can raise; a non-dict entry would raise `AttributeError` at the
first `.get` (unreachable after validation). -/
def flatten_app (instance_id instance_name script_version : String) :
    PyVal → Except String AppRow
  | .dict app =>
      match pyJoinIter ((pyLookup app "ports").getD (.list [])) with
      | .error m => .error m
      | .ok portsStr =>
          match pyJoinIter ((pyLookup app "pids").getD (.list [])) with
          | .error m => .error m
          | .ok pidsStr =>
              .ok { instance_id := instance_id
                    instance_name := instance_name
                    script_version := script_version
                    app_name := pyGetStr app "name" "Unknown"
                    app_type := pyGetStr app "type" "Unknown"
                    app_status := pyGetStr app "status" "Unknown"
                    app_image := pyGetStr app "image" ""
                    ports := portsStr
                    pids := pidsStr
                    process_name := pyGetStr app "process_name" ""
                    container_id := pyGetStr app "container_id" "" }
  | .int _ => .error (pyQuote ++ "int" ++ pyQuote ++ " object has no attribute " ++ pyQuote ++ "get" ++ pyQuote)
  | .float _ => .error (pyQuote ++ "float" ++ pyQuote ++ " object has no attribute " ++ pyQuote ++ "get" ++ pyQuote)
  | .bool _ => .error (pyQuote ++ "bool" ++ pyQuote ++ " object has no attribute " ++ pyQuote ++ "get" ++ pyQuote)
  | .str _ => .error (pyQuote ++ "str" ++ pyQuote ++ " object has no attribute " ++ pyQuote ++ "get" ++ pyQuote)
  | .list _ => .error (pyQuote ++ "list" ++ pyQuote ++ " object has no attribute " ++ pyQuote ++ "get" ++ pyQuote)
  | .none_ => .error (pyQuote ++ "NoneType" ++ pyQuote ++ " object has no attribute " ++ pyQuote ++ "get" ++ pyQuote)

/-- The `for app in applications` loop: one row per entry, in order; the
first raising entry aborts the whole file. -/
def flatten_apps (iid iname sv : String) : List PyVal → Except String (List AppRow)
  | [] => .ok []
  | a :: rest =>
      match flatten_app iid iname sv a with
      | .error m => .error m
      | .ok r =>
          match flatten_apps iid iname sv rest with
          | .error m => .error m
          | .ok rs => .ok (r :: rs)

/-- Processing of a single uploaded file inside `process_instance_data`:
validate, read the instance-level fields with `.get(..., 'Unknown')`,
then flatten every application.  The dead `if not applications` branch
(lines 242-246) is kept: it appends its message pre-formatted, which the
caller-side prefix turns into exactly the same final string. -/
def process_file (f : UploadedFile) : Except String (List AppRow) :=
  match load_and_validate_json f.content with
  | .error m => .error m
  | .ok data =>
      let instance_id := pyGetStr data "instance_id" "Unknown"
      let instance_name := pyGetStr data "instance_name" "Unknown"
      let script_version := pyGetStr data "script_version" "Unknown"
      let applications :=
        match pyLookup data "applications" with
        | some (.list l) => l
        | some _ => []
        | none => []
      if applications.isEmpty then
        .error ("Error processing file: " ++ pyQuote ++ "applications" ++ pyQuote ++ " list is empty")
      else flatten_apps instance_id instance_name script_version applications

/-- `process_instance_data`: processes the files in order; a failing file
contributes one `"Error processing {fileName}: {message}"` entry to the
session error list and is skipped; the surviving rows are concatenated
(`pd.concat`) in file order.  The session-state error list is passed and
returned explicitly. -/
def process_instance_data :
    List UploadedFile → List String → List AppRow × List String
  | [], errors => ([], errors)
  | f :: rest, errors =>
      match process_file f with
      | .error m =>
          process_instance_data rest
            (errors ++ ["Error processing " ++ f.name ++ ": " ++ m])
      | .ok rows =>
          let (rows', errors') := process_instance_data rest errors
          (rows ++ rows', errors')

/-- Pandas `Series.nunique()` on the projection of a row field: the
number of distinct values. -/
def nuniqueBy (f : AppRow → String) (rows : List AppRow) : Nat :=
  ((rows.map f).dedup).length

/-- Pandas `value_counts().to_dict()`: occurrence counts per distinct
value.  `value_counts` orders by descending count; the ordering of this
association list is not modelled (no claim depends on it). -/
def valueCounts (vals : List String) : List (String × Nat) :=
  vals.dedup.map (fun v => (v, vals.count v))

/-- Round-half-to-even on an exact rational, the rounding rule of Python
`round`.  (Python rounds binary floats; on the small exact values this
code produces the rules agree.) -/
def pyRoundHalfEven (q : ℚ) : ℤ :=
  if q - ⌊q⌋ = 1 / 2 then (if ⌊q⌋ % 2 = 0 then ⌊q⌋ else ⌊q⌋ + 1)
  else round q

/-- Python `round(q, 1)`. -/
def pyRound1 (q : ℚ) : ℚ := (pyRoundHalfEven (q * 10) : ℚ) / 10

/-- The dictionary returned by `create_summary_metrics`. -/
structure SummaryMetrics where
  total_instances : Nat
  total_applications : Nat
  unique_app_types : Nat
  avg_apps_per_instance : ℚ
  app_types : List (String × Nat)
deriving Repr

/-- `create_summary_metrics`.  The `all_ports` accumulation at the top of
the source function is dead code (its result is never returned) and is
omitted. -/
def create_summary_metrics (rows : List AppRow) : SummaryMetrics :=
  let ninst := nuniqueBy (fun r => r.instance_id) rows
  { total_instances := ninst
    total_applications := rows.length
    unique_app_types := nuniqueBy (fun r => r.app_type) rows
    avg_apps_per_instance :=
      if 0 < ninst then pyRound1 ((rows.length : ℚ) / (ninst : ℚ)) else 0
    app_types := valueCounts (rows.map (fun r => r.app_type)) }

/-- `s.startswith(pre)`. -/
def pyStarts (s pre : String) : Bool :=
  decide (s.data.take pre.data.length = pre.data)

/-- `s.endswith(suf)`. -/
def pyEnds (s suf : String) : Bool :=
  decide (s.data.reverse.take suf.data.length = suf.data.reverse)

/-- Decimal digit test. -/
def isDigitChar (c : Char) : Bool := 48 ≤ c.toNat && c.toNat ≤ 57

/-- Longest digit run at the head of a character list, and the rest. -/
def takeDigits : List Char → List Char × List Char
  | [] => ([], [])
  | c :: rest =>
      if isDigitChar c then
        let (ds, r) := takeDigits rest
        (c :: ds, r)
      else ([], c :: rest)

/-- Value of a digit run. -/
def digitsToNat (ds : List Char) : Nat :=
  ds.foldl (fun acc c => acc * 10 + (c.toNat - 48)) 0

/-- The whitespace `json.loads` skips between tokens (RFC 8259:
space, tab, line feed, carriage return). -/
def jsonWS (c : Char) : Bool :=
  c == ' ' || c == '\t' || c == '\n' || c == '\r'

def skipWS (cs : List Char) : List Char := cs.dropWhile jsonWS

/-- The `{` / `}` characters (built numerically). -/
def lbraceChar : Char := Char.ofNat 123

def rbraceChar : Char := Char.ofNat 125

/-- Consume the literal `lit` from the head of `cs`. -/
def stripLit (lit : String) (cs : List Char) : Option (List Char) :=
  if cs.take lit.data.length = lit.data then some (cs.drop lit.data.length)
  else none

/-- Body of a JSON string after the opening quote: the raw characters
up to the closing quote.  Escape sequences are not modelled (a
backslash fails the parse), and raw control characters are rejected as
`json.loads` does; every theorem below that quantifies over stored
strings therefore restricts itself to backslash-free values. -/
def parseJStrChars : List Char → Option (List Char × List Char)
  | [] => none
  | c :: r =>
      if c = '"' then some ([], r)
      else if c = '\\' then none
      else if c.toNat < 32 then none
      else
        match parseJStrChars r with
        | some (s, r2) => some (c :: s, r2)
        | none => none

/-- Integer part of a JSON number: `0` or a nonzero-leading digit run
(a leading zero such as `01` is invalid JSON).  Returns the consumed
digits, their value and the rest. -/
def parseJNumCore : List Char → Option (List Char × Int × List Char)
  | [] => none
  | c :: r =>
      if c = '0' then
        match r with
        | c2 :: _ => if isDigitChar c2 then none else some (['0'], 0, r)
        | [] => some (['0'], 0, [])
      else if isDigitChar c then
        match takeDigits (c :: r) with
        | (ds, r2) => some (ds, (digitsToNat ds : Int), r2)
      else none

/-- Optional fraction part `.digits` of a JSON number (the consumed
characters, empty when absent; `1.` is invalid). -/
def scanFrac : List Char → Option (List Char × List Char)
  | [] => some ([], [])
  | c :: r =>
      if c = '.' then
        match takeDigits r with
        | ([], _) => none
        | (fds, r2) => some ('.' :: fds, r2)
      else some ([], c :: r)

/-- Optional exponent part `[eE][+-]?digits` of a JSON number. -/
def scanExp : List Char → Option (List Char × List Char)
  | [] => some ([], [])
  | c :: r =>
      if c = 'e' ∨ c = 'E' then
        match r with
        | [] => none
        | s :: r2 =>
            if s = '+' ∨ s = '-' then
              match takeDigits r2 with
              | ([], _) => none
              | (eds, r3) => some (c :: s :: eds, r3)
            else
              match takeDigits (s :: r2) with
              | ([], _) => none
              | (eds, r3) => some (c :: eds, r3)
      else some ([], c :: r)

/-- A JSON number: an integer when it has neither fraction nor
exponent, otherwise a Python float carrying its source token.
`json.loads` additionally accepts `-Infinity` here. -/
def parseJNum : List Char → Option (PyVal × List Char)
  | [] => none
  | c :: r =>
      if c = '-' then
      match stripLit "Infinity" r with
      | some r2 => some (.float "-inf", r2)
      | none =>
          match parseJNumCore r with
          | none => none
          | some (ds, v, r2) =>
              match scanFrac r2 with
              | none => none
              | some (fc, r3) =>
                  match scanExp r3 with
                  | none => none
                  | some (ec, r4) =>
                      if fc = [] ∧ ec = [] then some (.int (-v), r4)
                      else some (.float (String.mk ('-' :: (ds ++ fc ++ ec))), r4)
      else
      match parseJNumCore (c :: r) with
      | none => none
      | some (ds, v, r2) =>
          match scanFrac r2 with
          | none => none
          | some (fc, r3) =>
              match scanExp r3 with
              | none => none
              | some (ec, r4) =>
                  if fc = [] ∧ ec = [] then some (.int v, r4)
                  else some (.float (String.mk (ds ++ fc ++ ec)), r4)

/-- Python `dict` construction from a JSON object's member list: a
repeated key keeps its first position and its last value. -/
def pyDictFold (pairs : List (String × PyVal)) : List (String × PyVal) :=
  pairs.foldl
    (fun acc p =>
      if acc.any (fun q => q.1 = p.1) then
        acc.map (fun q => if q.1 = p.1 then (q.1, p.2) else q)
      else acc ++ [p])
    []

/-- The three recursion entry points of the JSON reader: a single
value, the element list of an array after `[`, the member list of an
object after the opening brace. -/
inductive JTask : Type where
  | val
  | elems
  | members

inductive JOut : Type where
  | val (v : PyVal)
  | elems (vs : List PyVal)
  | members (ps : List (String × PyVal))

/-- Recursive descent of `json.loads`, fuelled (one unit per nested
parse step; `pyJsonLoads` supplies `2·length + 2`, which outlasts the
input since every two nested calls consume a character — Python itself
aborts pathologically deep documents with a `RecursionError`, which the
caller's bare `except` also turns into the failure case). -/
def parseJ : Nat → JTask → List Char → Option (JOut × List Char)
  | 0, _, _ => none
  | fuel + 1, .val, cs =>
      match cs with
      | [] => none
      | c :: r =>
          if c = '[' then
            match skipWS r with
            | [] => none
            | c1 :: r1 =>
                if c1 = ']' then some (.val (.list []), r1)
                else
                  match parseJ fuel .elems (c1 :: r1) with
                  | some (.elems vs, r2) => some (.val (.list vs), r2)
                  | _ => none
          else if c = lbraceChar then
            match skipWS r with
            | [] => none
            | c1 :: r1 =>
                if c1 = rbraceChar then some (.val (.dict []), r1)
                else
                  match parseJ fuel .members (c1 :: r1) with
                  | some (.members ps, r2) => some (.val (.dict (pyDictFold ps)), r2)
                  | _ => none
          else if c = '"' then
            match parseJStrChars r with
            | some (s, r2) => some (.val (.str (String.mk s)), r2)
            | none => none
          else
            match stripLit "true" cs with
            | some r2 => some (.val (.bool true), r2)
            | none =>
            match stripLit "false" cs with
            | some r2 => some (.val (.bool false), r2)
            | none =>
            match stripLit "null" cs with
            | some r2 => some (.val .none_, r2)
            | none =>
            match stripLit "NaN" cs with
            | some r2 => some (.val (.float "nan"), r2)
            | none =>
            match stripLit "Infinity" cs with
            | some r2 => some (.val (.float "inf"), r2)
            | none =>
            match parseJNum cs with
            | some (v, r2) => some (.val v, r2)
            | none => none
  | fuel + 1, .elems, cs =>
      match parseJ fuel .val (skipWS cs) with
      | some (.val v, r) =>
          match skipWS r with
          | [] => none
          | c1 :: r1 =>
              if c1 = ']' then some (.elems [v], r1)
              else if c1 = ',' then
                match parseJ fuel .elems r1 with
                | some (.elems vs, r2) => some (.elems (v :: vs), r2)
                | _ => none
              else none
      | _ => none
  | fuel + 1, .members, cs =>
      match skipWS cs with
      | '"' :: r =>
          match parseJStrChars r with
          | some (k, r2) =>
              match skipWS r2 with
              | ':' :: r3 =>
                  match parseJ fuel .val (skipWS r3) with
                  | some (.val v, r4) =>
                      match skipWS r4 with
                      | [] => none
                      | c5 :: r5 =>
                          if c5 = rbraceChar then some (.members [(String.mk k, v)], r5)
                          else if c5 = ',' then
                            match parseJ fuel .members r5 with
                            | some (.members ps, r6) =>
                                some (.members ((String.mk k, v) :: ps), r6)
                            | _ => none
                          else none
                  | _ => none
              | _ => none
          | none => none
      | _ => none

/-- `json.loads(x)`: skip leading whitespace, read one value, require
only whitespace to remain. -/
def pyJsonLoads (x : String) : Option PyVal :=
  match parseJ (2 * x.data.length + 2) .val (skipWS x.data) with
  | some (.val v, rest) => if skipWS rest = [] then some v else none
  | _ => none

/-- `safe_convert_ports` (the closure inside `load_data_from_db`):
falsy / `'nan'` / `'None'` sentinels map to `""`; a bracketed value is
fed to `json.loads` and the parsed array's elements are re-joined with
`', '.join(map(str, ...))` — whatever their JSON type — with any parse
failure swallowed by the bare `except` into `""`; any other string is
returned unchanged ("already comma-separated").  Stored values are
TEXT, hence strings; the `isinstance(x, list)` arm is unreachable from
`read_sql_query`.  (A parsed document whose first character is `[` is
always an array, so the non-list arm below is dead and mirrors the
`except` fallback.) -/
def safe_convert_ports (x : String) : String :=
  if x = "" ∨ x = "nan" ∨ x = "None" then ""
  else if pyStarts x "[" && pyEnds x "]" then
    match pyJsonLoads x with
    | some (.list vs) => joinCommaSpace (vs.map pyStr)
    | some _ => ""
    | none => ""
  else x

/-- A row of the `application_data` table: the seven columns written by
`save_data_to_db` plus the `id` autoincrement key and the `created_at`
default timestamp.  `load_data_from_db` (`SELECT *`) returns rows of
this shape. -/
structure DbAppRow where
  id : Nat
  instance_id : String
  instance_name : String
  app_name : String
  app_type : String
  app_status : String
  app_image : String
  ports : String
  created_at : Nat
deriving Repr, DecidableEq, Inhabited

/-- A row of the `user_tables` table.  `columns` / `filters` /
`custom_columns` are stored as JSON dumps and modelled structurally; the
surrogate `id` column plays no role (replacement is keyed on the UNIQUE
`table_name`) and is omitted. -/
structure UserTableRow where
  table_name : String
  columns : List String
  filters : List (String × String)
  custom_columns : List (String × String)
  created_at : Nat
deriving Repr, DecidableEq, Inhabited

/-- The `table_data` dictionary a caller passes to
`save_custom_table_to_db` (the UI builds it with keys `columns`, `data`,
`created_at`; `created_at` is read with `.get`, hence optional). -/
structure TableData where
  columns : List String
  data : List (List String)
  created_at : Option Nat
deriving Repr, DecidableEq, Inhabited

/-- A row of the `custom_tables` table: the JSON dump of `table_data`
plus the two timestamp columns written by `save_custom_table_to_db`. -/
structure CustomTableRow where
  table_name : String
  table_data : TableData
  created_at : Nat
  updated_at : Nat
deriving Repr, DecidableEq, Inhabited

/-- The SQLite store after `init_database` has run (which `main` does at
startup).  `init_database` creates only `application_data` and
`user_tables`; the `custom_tables` table is created lazily by
`save_custom_table_to_db`, so its record set is an `Option`: `none`
means "no such table". -/
structure Database where
  application_data : List DbAppRow
  user_tables : List UserTableRow
  custom_tables : Option (List CustomTableRow)
  next_id : Nat
deriving Repr, DecidableEq, Inhabited

/-- The store produced by `init_database` on a fresh file (`init_database`
on an existing store is a no-op: `CREATE TABLE IF NOT EXISTS`). -/
def emptyDatabase : Database :=
  { application_data := [], user_tables := [], custom_tables := none, next_id := 1 }

/-- `save_data_to_db`: `DELETE FROM application_data`, then insert each
DataFrame row, writing only the seven listed columns (`script_version`,
`pids`, `process_name` and `container_id` are not written); `id` is
assigned by AUTOINCREMENT and `created_at` by its CURRENT_TIMESTAMP
default. -/
def save_data_to_db (df : List AppRow) (now : Nat) (db : Database) :
    Bool × Database :=
  let inserted := df.enum.map (fun p =>
    { id := db.next_id + p.1
      instance_id := p.2.instance_id
      instance_name := p.2.instance_name
      app_name := p.2.app_name
      app_type := p.2.app_type
      app_status := p.2.app_status
      app_image := p.2.app_image
      ports := p.2.ports
      created_at := now : DbAppRow })
  (true, { db with application_data := inserted, next_id := db.next_id + df.length })

/-- `load_data_from_db`: `SELECT * FROM application_data`, then the
`ports` column is rewritten through `safe_convert_ports` (the
`df.empty` guard is immaterial: mapping over the empty table is the
empty result). -/
def load_data_from_db (db : Database) : List DbAppRow :=
  db.application_data.map (fun r => { r with ports := safe_convert_ports r.ports })

/-- `clear_database`: `DELETE FROM application_data` and
`DELETE FROM user_tables` — and nothing else: the `custom_tables` record
set is left untouched. -/
def clear_database (db : Database) : Bool × Database :=
  (true, { db with application_data := [], user_tables := [] })

/-- `save_user_table_to_db`: `INSERT OR REPLACE` keyed on `table_name`;
`created_at` is not in the column list, so the replacing row gets a fresh
CURRENT_TIMESTAMP.  (The `custom_columns` ALTER TABLE migration is
invisible in this structural model.) -/
def save_user_table_to_db (table_name : String) (columns : List String)
    (filters : List (String × String)) (custom_columns : List (String × String))
    (now : Nat) (db : Database) : Bool × Database :=
  (true, { db with user_tables :=
    db.user_tables.filter (fun r => r.table_name != table_name) ++
      [{ table_name := table_name, columns := columns, filters := filters
         custom_columns := custom_columns, created_at := now }] })

/-- `load_user_tables_from_db`: returns every stored configuration,
keyed by `table_name` (names are unique by the UNIQUE constraint). -/
def load_user_tables_from_db (db : Database) : List UserTableRow :=
  db.user_tables

/-- `delete_user_table_from_db`: `DELETE ... WHERE table_name = ?`
("delete if exists" — deleting an absent name is a successful no-op). -/
def delete_user_table_from_db (table_name : String) (db : Database) :
    Bool × Database :=
  (true, { db with user_tables :=
    db.user_tables.filter (fun r => r.table_name != table_name) })

/-- `save_custom_table_to_db`: creates the `custom_tables` table if
needed, then `INSERT OR REPLACE` keyed on `table_name`.  The stored
`created_at` column is `table_data.get('created_at', now)` — taken from
the *incoming* dictionary, not from any existing row — and `updated_at`
is always `now`. -/
def save_custom_table_to_db (table_name : String) (td : TableData)
    (now : Nat) (db : Database) : Bool × Database :=
  let tables := db.custom_tables.getD []
  let row : CustomTableRow :=
    { table_name := table_name, table_data := td
      created_at := td.created_at.getD now, updated_at := now }
  let newTables := tables.filter (fun r => r.table_name != table_name) ++ [row]
  (true, { db with custom_tables := some newTables })

/-- `load_custom_tables_from_db`: returns `{}` when the `custom_tables`
table does not exist; otherwise `SELECT table_name, table_data` — the
`created_at` / `updated_at` columns are not read back. -/
def load_custom_tables_from_db (db : Database) : List (String × TableData) :=
  match db.custom_tables with
  | none => []
  | some ts => ts.map (fun r => (r.table_name, r.table_data))

/-- `delete_custom_table_from_db`: `DELETE ... WHERE table_name = ?`.
When the `custom_tables` table has never been created this raises
`sqlite3.OperationalError` ("no such table"), which the handler turns
into a `False` return. -/
def delete_custom_table_from_db (table_name : String) (db : Database) :
    Bool × Database :=
  match db.custom_tables with
  | none => (false, db)
  | some ts =>
      let newTables := ts.filter (fun r => r.table_name != table_name)
      (true, { db with custom_tables := some newTables })

/-- Projection of an in-memory row onto the seven columns that
`save_data_to_db` actually writes. -/
def savedCols (r : AppRow) : String × String × String × String × String × String × String :=
  (r.instance_id, r.instance_name, r.app_name, r.app_type, r.app_status,
    r.app_image, r.ports)

/-- The same seven columns of a loaded database row. -/
def loadedCols (d : DbAppRow) : String × String × String × String × String × String × String :=
  (d.instance_id, d.instance_name, d.app_name, d.app_type, d.app_status,
    d.app_image, d.ports)

/-- `json.dumps(l)` for a list of integers: `'[' + ', '.join(...) + ']'`
(the JSON-array-encoded shape of a stored `ports` value). -/
def jsonIntArrayStr (l : List Int) : String :=
  String.mk ('[' :: commaJoinChars l ++ [']'])

/-- A character that may appear verbatim inside a modelled JSON string:
not a quote, not a backslash, not a raw control character. -/
def jsonPlainChar (c : Char) : Bool :=
  (c != '"') && (c != '\\') && decide (32 ≤ c.toNat)

/-- The characters of the JSON string literal for `s`. -/
def quotedChars (s : String) : List Char := '"' :: s.data ++ ['"']

/-- The characters of `', '.join` over JSON string literals. -/
def strArrayChars : List String → List Char
  | [] => []
  | [s] => quotedChars s
  | s :: t :: rest => quotedChars s ++ ',' :: ' ' :: strArrayChars (t :: rest)

/-- `json.dumps(ss)` for a list of strings — the JSON-array-encoded
shape of a non-integer stored value such as `["a", "b"]`. -/
def jsonStrArrayStr (ss : List String) : String :=
  String.mk ('[' :: strArrayChars ss ++ [']'])

/-- An optional field that is absent or holds a (JSON) integer list —
the shape the input format of the spec gives to `ports` / `pids`. -/
def intListField (o : Option PyVal) : Prop :=
  o = none ∨ ∃ l : List Int, o = some (.list (l.map PyVal.int))

/-- An application entry that is an object whose `ports` / `pids`
fields, when present, are integer lists (the `ApplicationRecord` shape
of the data model). -/
def wellTypedApp (a : PyVal) : Prop :=
  ∃ akvs, a = .dict akvs ∧
    intListField (pyLookup akvs "ports") ∧ intListField (pyLookup akvs "pids")

/-- The per-file dataset contribution: the flattened rows of a file that
processes cleanly, nothing for a failing file. -/
def fileRows (f : UploadedFile) : List AppRow :=
  match process_file f with
  | .ok rows => rows
  | .error _ => []

/-- The per-file error contribution: the formatted message for a failing
file, nothing for a clean one. -/
def fileError (f : UploadedFile) : Option String :=
  match process_file f with
  | .error m => some ("Error processing " ++ f.name ++ ": " ++ m)
  | .ok _ => none
/-- Sample rows for the persistence round trip: identical except `pids`. -/
def rowP1 : AppRow :=
  { instance_id := "i-1", instance_name := "web", script_version := "1.0"
    app_name := "nginx", app_type := "docker", app_status := "running"
    app_image := "nginx:1", ports := "80", pids := "101"
    process_name := "nginx", container_id := "abc" }

def rowP2 : AppRow := { rowP1 with pids := "202" }

/-- A row whose `ports` is in the canonical comma-joined form. -/
def rowCanon : AppRow := { rowP1 with ports := "80, 443" }

/-- A store holding one custom table, as left by `save_custom_table_to_db`. -/
def dbWithCustom : Database :=
  (save_custom_table_to_db "t1"
    { columns := ["a"], data := [["1"]], created_at := some 1 } 1 emptyDatabase).2

/-- A store with one user-table configuration and an (empty but existing)
custom-table set. -/
def dbC7 : Database :=
  { emptyDatabase with
    user_tables := [{ table_name := "keep", columns := [], filters := []
                      custom_columns := [], created_at := 0 }]
    custom_tables := some [] }

/-- A `table_data` dictionary that does not carry its own `created_at`. -/
def c9td : TableData := { columns := ["a"], data := [], created_at := none }

def c9db1 : Database := (save_custom_table_to_db "t" c9td 1 emptyDatabase).2

def c9db2 : Database := (save_custom_table_to_db "t" c9td 2 c9db1).2

/-- A sample application entry with `name` and `ports` only. -/
def c4app : List (String × PyVal) :=
  [("name", .str "nginx"), ("ports", .list [.int 80, .int 443])]

/-- The row the flattener produces for `c4app`. -/
def c4row : AppRow :=
  { instance_id := "i", instance_name := "n", script_version := "v"
    app_name := "nginx", app_type := "Unknown", app_status := "Unknown"
    app_image := "", ports := "80, 443", pids := ""
    process_name := "", container_id := "" }

/-- A valid two-application document. -/
def kvs3 : List (String × PyVal) :=
  [("instance_id", .str "i-1"), ("instance_name", .str "web"),
   ("applications", .list [.dict [("name", .str "a")], .dict [("name", .str "b")]])]

/-- A file with zero bytes. -/
def f_bad : UploadedFile := { name := "bad.json", content := .empty }

/-- A document whose `instance_id` is a whitespace-only string. -/
def kvs10 : List (String × PyVal) :=
  [("instance_id", .str " "), ("instance_name", .str "x"),
   ("applications", .list [.dict [("name", .str "a")]])]


theorem digitChar_toNat {d : Nat} (h : d < 10) :
    (digitChar d).toNat = 48 + d := by
  interval_cases d <;> rfl

theorem digitChar_isDigit {d : Nat} (h : d < 10) :
    48 ≤ (digitChar d).toNat ∧ (digitChar d).toNat ≤ 57 := by
  rw [digitChar_toNat h]; omega

theorem natCharsAux_digits {fuel n : Nat} :
    ∀ c ∈ natCharsAux fuel n, 48 ≤ c.toNat ∧ c.toNat ≤ 57 := by
  induction fuel generalizing n with
  | zero => intro c hc; simp [natCharsAux] at hc
  | succ fuel ih =>
      intro c hc
      simp only [natCharsAux] at hc
      by_cases h : n < 10
      · rw [if_pos h] at hc
        simp at hc
        subst hc
        exact digitChar_isDigit h
      · rw [if_neg h] at hc
        simp at hc
        rcases hc with hc | hc
        · exact ih c hc
        · subst hc
          exact digitChar_isDigit (Nat.mod_lt _ (by omega))

theorem natCharsAux_ne_nil {fuel n : Nat} (h : 0 < fuel) :
    natCharsAux fuel n ≠ [] := by
  cases fuel with
  | zero => omega
  | succ fuel =>
      simp only [natCharsAux]
      by_cases h10 : n < 10
      · simp [h10]
      · simp [h10]

theorem natChars_ne_nil (n : Nat) : natChars n ≠ [] :=
  natCharsAux_ne_nil (by omega)

theorem natChars_digits {n : Nat} :
    ∀ c ∈ natChars n, 48 ≤ c.toNat ∧ c.toNat ≤ 57 :=
  natCharsAux_digits

/-- The first character of `str(i)` is a minus sign or a decimal digit. -/
theorem intChars_head (i : Int) :
    ∃ c rest, intChars i = c :: rest ∧
      (c = '-' ∨ (48 ≤ c.toNat ∧ c.toNat ≤ 57)) := by
  unfold intChars
  by_cases h : i < 0
  · exact ⟨'-', natChars i.natAbs, by simp [h], Or.inl rfl⟩
  · simp only [h, if_false]
    rcases hne : natChars i.toNat with _ | ⟨c, rest⟩
    · exact absurd hne (natChars_ne_nil _)
    · exact ⟨c, rest, rfl,
        Or.inr (natChars_digits c (by rw [hne]; exact List.mem_cons_self _ _))⟩

theorem intChars_ne_nil (i : Int) : intChars i ≠ [] := by
  obtain ⟨c, rest, h, -⟩ := intChars_head i
  simp [h]

/-- The first character of a non-empty comma-joined integer list is a
minus sign or a decimal digit. -/
theorem commaJoinChars_head (i : Int) (l : List Int) :
    ∃ c rest, commaJoinChars (i :: l) = c :: rest ∧
      (c = '-' ∨ (48 ≤ c.toNat ∧ c.toNat ≤ 57)) := by
  obtain ⟨c, rest, hich, hc⟩ := intChars_head i
  cases l with
  | nil =>
      refine ⟨c, rest, ?_, hc⟩
      show intChars i = c :: rest
      exact hich
  | cons j rest' =>
      refine ⟨c, rest ++ ',' :: ' ' :: commaJoinChars (j :: rest'), ?_, hc⟩
      show intChars i ++ ',' :: ' ' :: commaJoinChars (j :: rest') = _
      rw [hich]; rfl


/-- Every character of `str(i)` is a minus sign or a decimal digit. -/
theorem intChars_mem {i : Int} :
    ∀ c ∈ intChars i, c = '-' ∨ (48 ≤ c.toNat ∧ c.toNat ≤ 57) := by
  intro c hc
  unfold intChars at hc
  by_cases h : i < 0
  · rw [if_pos h] at hc
    rcases List.mem_cons.mp hc with h1 | h1
    · exact Or.inl h1
    · exact Or.inr (natChars_digits c h1)
  · rw [if_neg h] at hc
    exact Or.inr (natChars_digits c hc)

theorem intChars_no_comma {i : Int} : ∀ c ∈ intChars i, c ≠ ',' := by
  intro c hc heq
  rcases intChars_mem c hc with h | h
  · rw [heq] at h; exact absurd h (by decide)
  · rw [heq] at h
    revert h; decide

theorem natChars_getLast (n : Nat) :
    ∃ c, (natChars n).getLast? = some c ∧ 48 ≤ c.toNat ∧ c.toNat ≤ 57 := by
  have hne := natChars_ne_nil n
  exact ⟨(natChars n).getLast hne, List.getLast?_eq_getLast_of_ne_nil hne,
    natChars_digits _ (List.getLast_mem hne)⟩

theorem intChars_getLast (i : Int) :
    ∃ c, (intChars i).getLast? = some c ∧ 48 ≤ c.toNat ∧ c.toNat ≤ 57 := by
  unfold intChars
  by_cases h : i < 0
  · rw [if_pos h]
    obtain ⟨c, hc, hd⟩ := natChars_getLast i.natAbs
    refine ⟨c, ?_, hd⟩
    rw [show '-' :: natChars i.natAbs = ['-'] ++ natChars i.natAbs from rfl,
      List.getLast?_append_of_ne_nil _ (natChars_ne_nil _)]
    exact hc
  · rw [if_neg h]
    exact natChars_getLast i.toNat

theorem commaJoinChars_ne_nil (i : Int) (l : List Int) :
    commaJoinChars (i :: l) ≠ [] := by
  obtain ⟨c, rest, hc, -⟩ := commaJoinChars_head i l
  simp [hc]

theorem commaJoinChars_getLast (i : Int) (l : List Int) :
    ∃ c, (commaJoinChars (i :: l)).getLast? = some c ∧ 48 ≤ c.toNat ∧ c.toNat ≤ 57 := by
  induction l generalizing i with
  | nil => exact intChars_getLast i
  | cons j rest ih =>
      obtain ⟨c, hc, hd⟩ := ih j
      refine ⟨c, ?_, hd⟩
      show (intChars i ++ ',' :: ' ' :: commaJoinChars (j :: rest)).getLast? = some c
      rw [show intChars i ++ ',' :: ' ' :: commaJoinChars (j :: rest) =
        (intChars i ++ [',', ' ']) ++ commaJoinChars (j :: rest) from by simp,
        List.getLast?_append_of_ne_nil _ (commaJoinChars_ne_nil j rest)]
      exact hc

/-- Any whitespace character has code at most 32. -/
theorem ws_toNat {c : Char} (h : isPyWhitespace c = true) : c.toNat ≤ 32 := by
  unfold isPyWhitespace at h
  simp only [Bool.or_eq_true, beq_iff_eq] at h
  rcases h with ((((h | h) | h) | h) | h) | h <;> subst h <;> decide

theorem not_ws_of_toNat {c : Char} (h : 33 ≤ c.toNat) : isPyWhitespace c = false := by
  cases hb : isPyWhitespace c
  · rfl
  · have := ws_toNat hb; omega

theorem dropWhile_eq_self_of_head {p : Char → Bool} :
    ∀ {cs : List Char}, (∀ c, cs.head? = some c → p c = false) → cs.dropWhile p = cs
  | [], _ => rfl
  | c :: rest, h => by
      rw [List.dropWhile_cons, h c rfl]
      simp

theorem takeDigits_append {ds rest : List Char}
    (hds : ∀ c ∈ ds, isDigitChar c = true)
    (hrest : ∀ c, rest.head? = some c → isDigitChar c = false) :
    takeDigits (ds ++ rest) = (ds, rest) := by
  induction ds with
  | nil =>
      cases rest with
      | nil => rfl
      | cons c r => simp [takeDigits, hrest c rfl]
  | cons c ds ih =>
      have hc := hds c (by simp)
      have ih' := ih (fun x hx => hds x (by simp [hx]))
      simp [takeDigits, hc, ih']

theorem isDigitChar_of_bounds {c : Char} (h : 48 ≤ c.toNat ∧ c.toNat ≤ 57) :
    isDigitChar c = true := by
  unfold isDigitChar
  simp only [Bool.and_eq_true, decide_eq_true_eq]
  omega

theorem digitsToNat_append (ds : List Char) (c : Char) :
    digitsToNat (ds ++ [c]) = digitsToNat ds * 10 + (c.toNat - 48) := by
  unfold digitsToNat
  rw [List.foldl_append]
  rfl

theorem digitsToNat_natCharsAux {fuel n : Nat} (h : n < 10 ^ fuel) :
    digitsToNat (natCharsAux fuel n) = n := by
  induction fuel generalizing n with
  | zero =>
      simp at h
      subst h
      rfl
  | succ fuel ih =>
      by_cases h10 : n < 10
      · rw [natCharsAux, if_pos h10]
        show digitsToNat [digitChar n] = n
        unfold digitsToNat
        simp [digitChar_toNat h10]
      · rw [natCharsAux, if_neg h10, digitsToNat_append,
          ih (by rw [pow_succ] at h; exact (Nat.div_lt_iff_lt_mul (by norm_num)).mpr h),
          digitChar_toNat (Nat.mod_lt _ (by omega))]
        omega

theorem digitsToNat_natChars (n : Nat) : digitsToNat (natChars n) = n :=
  digitsToNat_natCharsAux
    (lt_of_lt_of_le (Nat.lt_pow_self (by norm_num) n)
      (Nat.pow_le_pow_right (by norm_num) (by omega)))

theorem takeDigits_natChars (n : Nat) : takeDigits (natChars n) = (natChars n, []) := by
  have h := @takeDigits_append (natChars n) []
    (fun c hc => isDigitChar_of_bounds (natChars_digits c hc)) (by simp)
  simpa using h

theorem commaJoin_head (i : Int) (l : List Int) :
    ∃ c rest, (commaJoin (i :: l)).data = c :: rest ∧ 45 ≤ c.toNat ∧ c.toNat ≤ 57 := by
  obtain ⟨c, rest, hc, hd⟩ := commaJoinChars_head i l
  refine ⟨c, rest, ?_, ?_⟩
  · show commaJoinChars (i :: l) = c :: rest
    exact hc
  · rcases hd with h | h
    · subst h; exact ⟨by decide, by decide⟩
    · omega

theorem commaJoin_ne_sentinels (i : Int) (l : List Int) :
    ¬(commaJoin (i :: l) = "" ∨ commaJoin (i :: l) = "nan" ∨ commaJoin (i :: l) = "None") := by
  obtain ⟨c, rest, hdata, hlo, hhi⟩ := commaJoin_head i l
  intro h
  rcases h with h | h | h <;>
    · have hd := congrArg String.data h
      rw [hdata] at hd
      simp at hd
      try (obtain ⟨hd, -⟩ := hd; subst hd; exact absurd hhi (by decide))

theorem safe_convert_ports_commaJoin (l : List Int) :
    safe_convert_ports (commaJoin l) = commaJoin l := by
  cases l with
  | nil => rfl
  | cons i l' =>
      obtain ⟨c, rest, hdata, hlo, hhi⟩ := commaJoin_head i l'
      unfold safe_convert_ports
      rw [if_neg (commaJoin_ne_sentinels i l')]
      have hps : pyStarts (commaJoin (i :: l')) "[" = false := by
        unfold pyStarts
        apply decide_eq_false
        intro hh
        rw [hdata] at hh
        have hc1 : c = '[' := by
          have h2 := congrArg (fun t => t.head?) hh
          simpa using h2
        subst hc1
        exact absurd hhi (by decide)
      rw [hps]
      simp

theorem jsonIntArrayStr_ne_sentinels (l : List Int) :
    ¬(jsonIntArrayStr l = "" ∨ jsonIntArrayStr l = "nan" ∨ jsonIntArrayStr l = "None") := by
  intro h
  have hdata : (jsonIntArrayStr l).data = '[' :: (commaJoinChars l ++ [']']) := rfl
  rcases h with h | h | h <;>
    · have hd := congrArg String.data h
      rw [hdata] at hd
      simp at hd

theorem joinCommaSpace_map_intStr (l : List Int) :
    joinCommaSpace (l.map intStr) = commaJoin l := by
  induction l with
  | nil => rfl
  | cons i l' ih =>
      cases l' with
      | nil => rfl
      | cons j rest =>
          show intStr i ++ ", " ++ joinCommaSpace ((j :: rest).map intStr) =
            commaJoin (i :: j :: rest)
          rw [ih]
          apply String.ext
          show (intStr i ++ ", " ++ commaJoin (j :: rest)).data =
            commaJoinChars (i :: j :: rest)
          rw [String.data_append, String.data_append]
          show intChars i ++ [',', ' '] ++ commaJoinChars (j :: rest) =
            intChars i ++ ',' :: ' ' :: commaJoinChars (j :: rest)
          simp

/-- `', '.join(map(str, xs))` on a PyVal integer list is the canonical
comma-joined serialization. -/
theorem pyJoinIter_intList (l : List Int) :
    pyJoinIter (.list (l.map PyVal.int)) = .ok (commaJoin l) := by
  show Except.ok (joinCommaSpace ((l.map PyVal.int).map pyStr)) = _
  rw [List.map_map]
  have : (pyStr ∘ PyVal.int) = intStr := by
    funext n
    show pyStr (.int n) = intStr n
    rfl
  rw [this, joinCommaSpace_map_intStr]

/-- C1 (counterexample): two in-memory datasets differing only in `pids`
produce identical database states under `save_data_to_db`, hence identical
`load_data_from_db` results — so no field-recovering round trip exists:
`script_version`, `pids`, `process_name` and `container_id` are dropped. -/
theorem C1_counterexample_pids_not_recovered :
    rowP1 ≠ rowP2 ∧
    save_data_to_db [rowP1] 7 emptyDatabase = save_data_to_db [rowP2] 7 emptyDatabase ∧
    load_data_from_db (save_data_to_db [rowP1] 7 emptyDatabase).2 =
      load_data_from_db (save_data_to_db [rowP2] 7 emptyDatabase).2 := by
  refine ⟨by decide, by decide, by decide⟩

/-- C1 (amended): for datasets whose `ports` strings are in the canonical
comma-joined form, `load_data_from_db` after `save_data_to_db` returns,
row for row and in order, exactly the seven persisted columns
(`instance_id`, `instance_name`, `app_name`, `app_type`, `app_status`,
`app_image`, `ports`) of the saved rows. -/
theorem C1_amended_roundtrip_persisted_columns
    (rows : List AppRow) (now : Nat) (db : Database)
    (h : ∀ r ∈ rows, ∃ l : List Int, r.ports = commaJoin l) :
    (load_data_from_db (save_data_to_db rows now db).2).map loadedCols =
      rows.map savedCols := by
  unfold save_data_to_db load_data_from_db
  simp only [List.map_map]
  have hcomp :
      (loadedCols ∘ ((fun r : DbAppRow => { r with ports := safe_convert_ports r.ports }) ∘
        (fun p : Nat × AppRow =>
          ({ id := db.next_id + p.1, instance_id := p.2.instance_id
             instance_name := p.2.instance_name, app_name := p.2.app_name
             app_type := p.2.app_type, app_status := p.2.app_status
             app_image := p.2.app_image, ports := p.2.ports
             created_at := now : DbAppRow })))) =
      (fun p : Nat × AppRow =>
        (p.2.instance_id, p.2.instance_name, p.2.app_name, p.2.app_type,
          p.2.app_status, p.2.app_image, safe_convert_ports p.2.ports)) := by
    funext p
    rfl
  rw [hcomp]
  have hsnd :
      (fun p : Nat × AppRow =>
        (p.2.instance_id, p.2.instance_name, p.2.app_name, p.2.app_type,
          p.2.app_status, p.2.app_image, safe_convert_ports p.2.ports)) =
      ((fun r : AppRow =>
        (r.instance_id, r.instance_name, r.app_name, r.app_type,
          r.app_status, r.app_image, safe_convert_ports r.ports)) ∘ Prod.snd) := by
    funext p
    rfl
  rw [hsnd, ← List.map_map, List.enum_map_snd]
  apply List.map_congr_left
  intro r hr
  obtain ⟨l, hl⟩ := h r hr
  show (r.instance_id, r.instance_name, r.app_name, r.app_type, r.app_status,
    r.app_image, safe_convert_ports r.ports) = savedCols r
  unfold savedCols
  rw [hl, safe_convert_ports_commaJoin]

/-- C1 (witness): the round trip at a concrete one-row dataset. -/
theorem C1_witness :
    (load_data_from_db (save_data_to_db [rowCanon] 3 emptyDatabase).2).map loadedCols =
      [rowCanon].map savedCols :=
  C1_amended_roundtrip_persisted_columns [rowCanon] 3 emptyDatabase (by
    intro r hr
    rw [List.mem_singleton] at hr
    subst hr
    exact ⟨[80, 443], by decide⟩)

/-- C2 (code bug): `clear_database` empties the application-row table and
the user-table configurations, but leaves the custom tables in place —
at the concrete failing store `dbWithCustom`, the custom table `t1`
survives the clear. -/
theorem C2_clear_database_leaves_custom_tables :
    load_data_from_db (clear_database dbWithCustom).2 = [] ∧
    load_user_tables_from_db (clear_database dbWithCustom).2 = [] ∧
    load_custom_tables_from_db (clear_database dbWithCustom).2 =
      [("t1", { columns := ["a"], data := [["1"]], created_at := some 1 })] := by
  refine ⟨rfl, rfl, by decide⟩

/-- C7 (counterexample): on a freshly initialized store (where no custom
table was ever saved, so the `custom_tables` table does not exist),
deleting an absent custom-table name returns failure, not a no-op
success. -/
theorem C7_counterexample_delete_custom_fails_without_table :
    delete_custom_table_from_db "t" emptyDatabase = (false, emptyDatabase) ∧
    load_custom_tables_from_db emptyDatabase = [] := by
  exact ⟨rfl, rfl⟩

/-- C7 (amended): deleting an absent `table_name` is a successful no-op
for the user-table store always, and for the custom-table store whenever
its record set exists (i.e. some custom table has been saved before);
when the custom-table set was never created the delete returns failure
with the store unchanged. -/
theorem C7_amended_delete_missing_noop (name : String) (db : Database) :
    ((∀ r ∈ db.user_tables, r.table_name ≠ name) →
      delete_user_table_from_db name db = (true, db)) ∧
    (∀ ts, db.custom_tables = some ts →
      (∀ r ∈ ts, r.table_name ≠ name) →
      delete_custom_table_from_db name db = (true, db)) ∧
    (db.custom_tables = none → delete_custom_table_from_db name db = (false, db)) := by
  refine ⟨?_, ?_, ?_⟩
  · intro h
    have hf : db.user_tables.filter (fun r => r.table_name != name) = db.user_tables :=
      List.filter_eq_self.mpr (fun a ha => bne_iff_ne.mpr (h a ha))
    unfold delete_user_table_from_db
    rw [hf]
  · intro ts hts h
    have hf : ts.filter (fun r => r.table_name != name) = ts :=
      List.filter_eq_self.mpr (fun a ha => bne_iff_ne.mpr (h a ha))
    unfold delete_custom_table_from_db
    rw [hts]
    simp only [hf]
    rw [← hts]
  · intro h
    unfold delete_custom_table_from_db
    rw [h]

/-- C7 (witness): concrete no-op deletes on a store where both record
sets exist but do not contain the name. -/
theorem C7_witness :
    delete_user_table_from_db "absent" dbC7 = (true, dbC7) ∧
    delete_custom_table_from_db "absent" dbC7 = (true, dbC7) :=
  ⟨(C7_amended_delete_missing_noop "absent" dbC7).1 (by decide),
   (C7_amended_delete_missing_noop "absent" dbC7).2.1 [] rfl (by simp)⟩

/-- C9 (counterexample): saving the same custom table twice with a
`table_data` that does not carry `created_at` resets the stored
`created_at` to the time of the second save (2), instead of preserving
the value from the first creation (1); `updated_at` is refreshed. -/
theorem C9_counterexample_created_at_not_preserved :
    c9db1.custom_tables =
      some [{ table_name := "t", table_data := c9td, created_at := 1, updated_at := 1 }] ∧
    c9db2.custom_tables =
      some [{ table_name := "t", table_data := c9td, created_at := 2, updated_at := 2 }] ∧
    (2 : Nat) ≠ 1 := by
  refine ⟨by decide, by decide, by decide⟩

/-- C9 (amended): every save refreshes the stored `updated_at` to the
save time; the stored `created_at` is taken from the *incoming*
`table_data` (falling back to the save time when absent) — it is
preserved from first creation only when the caller threads the original
`created_at` through `table_data`.  Rows under other names are
untouched. -/
theorem C9_amended_save_custom_table (name : String) (td : TableData)
    (now : Nat) (db : Database) :
    (save_custom_table_to_db name td now db).1 = true ∧
    ∃ ts, ((save_custom_table_to_db name td now db).2).custom_tables = some ts ∧
      ts.filter (fun r => r.table_name == name) =
        [{ table_name := name, table_data := td
           created_at := td.created_at.getD now, updated_at := now }] ∧
      ts.filter (fun r => r.table_name != name) =
        (db.custom_tables.getD []).filter (fun r => r.table_name != name) := by
  constructor
  · rfl
  · refine ⟨(db.custom_tables.getD []).filter (fun r => r.table_name != name) ++
      [({ table_name := name, table_data := td
          created_at := td.created_at.getD now, updated_at := now } : CustomTableRow)],
      rfl, ?_, ?_⟩
    · rw [List.filter_append, List.filter_filter]
      have h1 : (fun (a : CustomTableRow) =>
          (a.table_name == name) && (a.table_name != name)) = fun _ => false := by
        funext a
        cases h : a.table_name == name
        · simp [h]
        · simp [bne, h]
      rw [h1, List.filter_false]
      simp
    · rw [List.filter_append, List.filter_filter]
      have h2 : (fun (a : CustomTableRow) =>
          (a.table_name != name) && (a.table_name != name)) =
          fun a => a.table_name != name := by
        funext a
        exact Bool.and_self _
      rw [h2]
      simp

/-- C6: `avg_apps_per_instance` is total — it equals the row count
divided by the number of distinct `instance_id` groups rounded to one
decimal when at least one group exists, and is defined as `0` on the
empty dataset (the only way to have zero groups); no division by zero is
performed. -/
theorem C6_avg_apps_per_instance (rows : List AppRow) :
    ((create_summary_metrics rows).avg_apps_per_instance =
      if rows = [] then 0
      else pyRound1 ((rows.length : ℚ) /
        (((rows.map (fun r => r.instance_id)).toFinset.card : Nat) : ℚ))) ∧
    ((rows.map (fun r => r.instance_id)).toFinset.card = 0 ↔ rows = []) := by
  have hcard : (rows.map (fun r => r.instance_id)).toFinset.card =
      nuniqueBy (fun r => r.instance_id) rows := by
    unfold nuniqueBy
    exact List.card_toFinset _
  constructor
  · show (if 0 < nuniqueBy (fun r => r.instance_id) rows then
        pyRound1 ((rows.length : ℚ) / (nuniqueBy (fun r => r.instance_id) rows : ℚ))
      else 0) = _
    cases rows with
    | nil => rfl
    | cons r rest =>
        have hpos : 0 < nuniqueBy (fun r => r.instance_id) (r :: rest) := by
          unfold nuniqueBy
          have hmem : r.instance_id ∈ ((r :: rest).map (fun x => x.instance_id)).dedup := by
            rw [List.mem_dedup]
            exact List.mem_map_of_mem _ (by simp)
          exact List.length_pos.mpr (List.ne_nil_of_mem hmem)
        rw [if_pos hpos, if_neg (by simp), hcard]
  · rw [hcard]
    unfold nuniqueBy
    constructor
    · intro h
      have hnil := List.eq_nil_of_length_eq_zero h
      cases rows with
      | nil => rfl
      | cons r rest =>
          exfalso
          have hmem : r.instance_id ∈ ((r :: rest).map (fun x => x.instance_id)).dedup := by
            rw [List.mem_dedup]
            exact List.mem_map_of_mem _ (by simp)
          rw [hnil] at hmem
          simp at hmem
    · intro h
      subst h
      rfl

theorem load_and_validate_json_ok {kvs d : List (String × PyVal)}
    (h : load_and_validate_json (.parsed kvs) = .ok d) :
    d = kvs ∧ validate_structure kvs = .ok () := by
  simp only [load_and_validate_json] at h
  rcases hv : validate_structure kvs with m | u
  · rw [hv] at h
    simp at h
  · rw [hv] at h
    cases u
    simp at h
    exact ⟨h.symm, rfl⟩

theorem strFieldNonEmpty_true {kvs : List (String × PyVal)} {k : String}
    (h : strFieldNonEmpty kvs k = true) :
    ∃ s, pyLookup kvs k = some (.str s) ∧ pyStripIsEmpty s = false := by
  unfold strFieldNonEmpty at h
  rcases hl : pyLookup kvs k with - | v
  · rw [hl] at h
    simp at h
  · rw [hl] at h
    cases v with
    | str s =>
        refine ⟨s, rfl, ?_⟩
        simpa using h
    | int n => simp at h
    | float tok => simp at h
    | bool b => simp at h
    | list xs => simp at h
    | dict d => simp at h
    | none_ => simp at h

theorem validate_structure_ok_facts {kvs : List (String × PyVal)}
    (h : validate_structure kvs = .ok ()) :
    (∃ s, pyLookup kvs "instance_id" = some (.str s) ∧ pyStripIsEmpty s = false) ∧
    (∃ s, pyLookup kvs "instance_name" = some (.str s) ∧ pyStripIsEmpty s = false) ∧
    (∃ apps, pyLookup kvs "applications" = some (.list apps) ∧ apps ≠ []) := by
  unfold validate_structure at h
  by_cases h1 : missingFields kvs ≠ []
  · rw [if_pos h1] at h
    simp at h
  · rw [if_neg h1] at h
    by_cases h2 : (!(strFieldNonEmpty kvs "instance_id")) = true
    · rw [if_pos h2] at h
      simp at h
    · rw [if_neg h2] at h
      by_cases h3 : (!(strFieldNonEmpty kvs "instance_name")) = true
      · rw [if_pos h3] at h
        simp at h
      · rw [if_neg h3] at h
        have hid : strFieldNonEmpty kvs "instance_id" = true := by
          revert h2
          cases strFieldNonEmpty kvs "instance_id" <;> simp
        have hname : strFieldNonEmpty kvs "instance_name" = true := by
          revert h3
          cases strFieldNonEmpty kvs "instance_name" <;> simp
        refine ⟨strFieldNonEmpty_true hid, strFieldNonEmpty_true hname, ?_⟩
        rcases hl : pyLookup kvs "applications" with - | v
        · rw [hl] at h
          simp at h
        · rw [hl] at h
          cases v with
          | list apps =>
              refine ⟨apps, rfl, ?_⟩
              intro he
              subst he
              simp at h
          | str s => simp at h
          | int n => simp at h
          | float tok => simp at h
          | bool b => simp at h
          | dict d => simp at h
          | none_ => simp at h

/-- C10: the validator accepts a document only if `instance_id` and
`instance_name` are strings containing at least one non-whitespace
character; in particular a whitespace-only value for either field (which
is a non-empty string) is rejected. -/
theorem C10_whitespace_only_ids_rejected (kvs : List (String × PyVal)) :
    (∀ s, (pyLookup kvs "instance_id" = some (.str s) ∨
        pyLookup kvs "instance_name" = some (.str s)) →
      pyStripIsEmpty s = true →
      ∃ m, load_and_validate_json (.parsed kvs) = .error m) ∧
    (∀ d, load_and_validate_json (.parsed kvs) = .ok d →
      (∃ s, pyLookup kvs "instance_id" = some (.str s) ∧ pyStripIsEmpty s = false) ∧
      (∃ s, pyLookup kvs "instance_name" = some (.str s) ∧ pyStripIsEmpty s = false)) := by
  constructor
  · intro s hs hws
    rcases hres : load_and_validate_json (.parsed kvs) with m | d
    · exact ⟨m, rfl⟩
    · exfalso
      obtain ⟨-, hv⟩ := load_and_validate_json_ok hres
      obtain ⟨⟨s1, hl1, hw1⟩, ⟨s2, hl2, hw2⟩, -⟩ := validate_structure_ok_facts hv
      rcases hs with hs | hs
      · rw [hs] at hl1
        have : s = s1 := by injection hl1 with h'; injection h'
        subst this
        rw [hws] at hw1
        exact absurd hw1 (by simp)
      · rw [hs] at hl2
        have : s = s2 := by injection hl2 with h'; injection h'
        subst this
        rw [hws] at hw2
        exact absurd hw2 (by simp)
  · intro d hd
    obtain ⟨-, hv⟩ := load_and_validate_json_ok hd
    obtain ⟨ha, hb, -⟩ := validate_structure_ok_facts hv
    exact ⟨ha, hb⟩

/-- C10 (witness): a document whose `instance_id` is `" "` is rejected. -/
theorem C10_witness : ∃ m, load_and_validate_json (.parsed kvs10) = .error m :=
  (C10_whitespace_only_ids_rejected kvs10).1 " " (Or.inl rfl) rfl

/-- C4: field defaulting and serialization in the flattener: missing
`type`/`status` default to `"Unknown"`, missing `image` /
`process_name` / `container_id` to `""`; integer `ports`/`pids` arrays
are serialized comma-and-space-joined, and an absent or empty array
yields `""`. -/
theorem C4_flatten_field_defaults (iid iname sv : String)
    (akvs : List (String × PyVal)) (row : AppRow)
    (hrow : flatten_app iid iname sv (.dict akvs) = .ok row) :
    (pyLookup akvs "type" = none → row.app_type = "Unknown") ∧
    (pyLookup akvs "status" = none → row.app_status = "Unknown") ∧
    (pyLookup akvs "image" = none → row.app_image = "") ∧
    (pyLookup akvs "process_name" = none → row.process_name = "") ∧
    (pyLookup akvs "container_id" = none → row.container_id = "") ∧
    (∀ l : List Int, pyLookup akvs "ports" = some (.list (l.map PyVal.int)) →
      row.ports = commaJoin l) ∧
    ((pyLookup akvs "ports" = none ∨ pyLookup akvs "ports" = some (.list [])) →
      row.ports = "") ∧
    (∀ l : List Int, pyLookup akvs "pids" = some (.list (l.map PyVal.int)) →
      row.pids = commaJoin l) ∧
    ((pyLookup akvs "pids" = none ∨ pyLookup akvs "pids" = some (.list [])) →
      row.pids = "") := by
  simp only [flatten_app] at hrow
  rcases hP : pyJoinIter ((pyLookup akvs "ports").getD (.list [])) with mP | sP
  · rw [hP] at hrow
    simp at hrow
  · rw [hP] at hrow
    rcases hQ : pyJoinIter ((pyLookup akvs "pids").getD (.list [])) with mQ | sQ
    · rw [hQ] at hrow
      simp at hrow
    · rw [hQ] at hrow
      simp only [Except.ok.injEq] at hrow
      subst hrow
      refine ⟨?_, ?_, ?_, ?_, ?_, ?_, ?_, ?_, ?_⟩
      · intro hnone
        show pyGetStr akvs "type" "Unknown" = "Unknown"
        simp [pyGetStr, hnone]
      · intro hnone
        show pyGetStr akvs "status" "Unknown" = "Unknown"
        simp [pyGetStr, hnone]
      · intro hnone
        show pyGetStr akvs "image" "" = ""
        simp [pyGetStr, hnone]
      · intro hnone
        show pyGetStr akvs "process_name" "" = ""
        simp [pyGetStr, hnone]
      · intro hnone
        show pyGetStr akvs "container_id" "" = ""
        simp [pyGetStr, hnone]
      · intro l hl
        rw [hl] at hP
        simp only [Option.getD_some] at hP
        rw [pyJoinIter_intList] at hP
        show sP = commaJoin l
        injection hP with h'
        exact h'.symm
      · intro hl
        show sP = ""
        rcases hl with hl | hl <;>
          · rw [hl] at hP
            simp [pyJoinIter] at hP
            exact hP.symm
      · intro l hl
        rw [hl] at hQ
        simp only [Option.getD_some] at hQ
        rw [pyJoinIter_intList] at hQ
        show sQ = commaJoin l
        injection hQ with h'
        exact h'.symm
      · intro hl
        show sQ = ""
        rcases hl with hl | hl <;>
          · rw [hl] at hQ
            simp [pyJoinIter] at hQ
            exact hQ.symm

/-- C4 (witness): the flattener at a concrete entry carrying only
`name` and `ports`. -/
theorem C4_witness :
    flatten_app "i" "n" "v" (.dict c4app) = .ok c4row ∧
    c4row.app_type = "Unknown" ∧ c4row.app_status = "Unknown" ∧
    c4row.app_image = "" ∧ c4row.process_name = "" ∧ c4row.container_id = "" ∧
    c4row.ports = "80, 443" ∧ c4row.pids = "" := by
  have hr : flatten_app "i" "n" "v" (.dict c4app) = .ok c4row := rfl
  have h := C4_flatten_field_defaults "i" "n" "v" c4app c4row hr
  refine ⟨hr, h.1 rfl, h.2.1 rfl, h.2.2.1 rfl, h.2.2.2.1 rfl, h.2.2.2.2.1 rfl, ?_, ?_⟩
  · exact (h.2.2.2.2.2.1 [80, 443] rfl).trans (by decide)
  · exact h.2.2.2.2.2.2.2.2 (Or.inl rfl)

theorem flatten_app_ok_of_wellTyped (iid iname sv : String) {a : PyVal}
    (hwt : wellTypedApp a) : ∃ r, flatten_app iid iname sv a = .ok r := by
  obtain ⟨akvs, ha, hports, hpids⟩ := hwt
  subst ha
  have hjP : ∃ s, pyJoinIter ((pyLookup akvs "ports").getD (.list [])) = .ok s := by
    rcases hports with h | ⟨l, h⟩
    · rw [h]; exact ⟨_, rfl⟩
    · rw [h]; exact ⟨_, pyJoinIter_intList l⟩
  have hjQ : ∃ s, pyJoinIter ((pyLookup akvs "pids").getD (.list [])) = .ok s := by
    rcases hpids with h | ⟨l, h⟩
    · rw [h]; exact ⟨_, rfl⟩
    · rw [h]; exact ⟨_, pyJoinIter_intList l⟩
  obtain ⟨sP, hsP⟩ := hjP
  obtain ⟨sQ, hsQ⟩ := hjQ
  refine ⟨{ instance_id := iid, instance_name := iname, script_version := sv
            app_name := pyGetStr akvs "name" "Unknown"
            app_type := pyGetStr akvs "type" "Unknown"
            app_status := pyGetStr akvs "status" "Unknown"
            app_image := pyGetStr akvs "image" ""
            ports := sP, pids := sQ
            process_name := pyGetStr akvs "process_name" ""
            container_id := pyGetStr akvs "container_id" "" }, ?_⟩
  simp only [flatten_app, hsP, hsQ]

theorem flatten_apps_ok (iid iname sv : String) :
    ∀ apps : List PyVal, (∀ a ∈ apps, wellTypedApp a) →
    ∃ rows, flatten_apps iid iname sv apps = .ok rows ∧
      rows.length = apps.length ∧
      ∀ i, i < apps.length →
        ∃ a r, apps[i]? = some a ∧ rows[i]? = some r ∧
          flatten_app iid iname sv a = .ok r := by
  intro apps
  induction apps with
  | nil =>
      intro _
      exact ⟨[], rfl, rfl, by intro i hi; simp at hi⟩
  | cons a rest ih =>
      intro hwt
      obtain ⟨r, hr⟩ := flatten_app_ok_of_wellTyped iid iname sv (hwt a (by simp))
      obtain ⟨rows, hrows, hlen, hpt⟩ := ih (fun x hx => hwt x (by simp [hx]))
      refine ⟨r :: rows, ?_, by simp [hlen], ?_⟩
      · simp only [flatten_apps, hr, hrows]
      · intro i hi
        cases i with
        | zero => exact ⟨a, r, by simp, by simp, hr⟩
        | succ n =>
            obtain ⟨a', r', h1, h2, h3⟩ := hpt n (by simpa using hi)
            exact ⟨a', r', by simpa using h1, by simpa using h2, h3⟩

/-- C3: for a document that passes validation and whose application
entries have the `ApplicationRecord` shape, per-file processing succeeds
and flattening yields exactly one row per application entry, the i-th
row coming from the i-th entry. -/
theorem C3_one_row_per_application (name : String)
    (kvs : List (String × PyVal)) (apps : List PyVal)
    (happs : pyLookup kvs "applications" = some (.list apps))
    (hok : load_and_validate_json (.parsed kvs) = .ok kvs)
    (hwt : ∀ a ∈ apps, wellTypedApp a) :
    ∃ rows, process_file { name := name, content := .parsed kvs } = .ok rows ∧
      rows.length = apps.length ∧
      ∀ i, i < apps.length →
        ∃ a r, apps[i]? = some a ∧ rows[i]? = some r ∧
          flatten_app (pyGetStr kvs "instance_id" "Unknown")
            (pyGetStr kvs "instance_name" "Unknown")
            (pyGetStr kvs "script_version" "Unknown") a = .ok r := by
  obtain ⟨-, hv⟩ := load_and_validate_json_ok hok
  obtain ⟨-, -, apps', happs', hne⟩ := validate_structure_ok_facts hv
  have heq : apps' = apps := by
    rw [happs] at happs'
    injection happs' with h'
    injection h' with h''
    exact h''.symm
  subst heq
  obtain ⟨rows, hrows, hlen, hpt⟩ :=
    flatten_apps_ok (pyGetStr kvs "instance_id" "Unknown")
      (pyGetStr kvs "instance_name" "Unknown")
      (pyGetStr kvs "script_version" "Unknown") apps' hwt
  refine ⟨rows, ?_, hlen, hpt⟩
  unfold process_file
  rw [hok]
  simp only [happs]
  rw [if_neg (by simpa using hne)]
  exact hrows

/-- C3 (witness): the two-application document `kvs3` flattens to
exactly two rows. -/
theorem C3_witness :
    ∃ rows, process_file { name := "a.json", content := .parsed kvs3 } = .ok rows ∧
      rows.length = 2 := by
  obtain ⟨rows, h1, h2, -⟩ :=
    C3_one_row_per_application "a.json" kvs3
      [.dict [("name", .str "a")], .dict [("name", .str "b")]]
      rfl rfl
      (by
        intro a ha
        simp at ha
        rcases ha with rfl | rfl
        · exact ⟨_, rfl, Or.inl rfl, Or.inl rfl⟩
        · exact ⟨_, rfl, Or.inl rfl, Or.inl rfl⟩)
  exact ⟨rows, h1, h2⟩

theorem process_instance_data_eq (files : List UploadedFile) (errors0 : List String) :
    process_instance_data files errors0 =
      ((files.map fileRows).flatten, errors0 ++ files.filterMap fileError) := by
  induction files generalizing errors0 with
  | nil => simp [process_instance_data]
  | cons f rest ih =>
      rcases hf : process_file f with m | rows
      · simp only [process_instance_data, hf]
        rw [ih]
        simp [fileRows, fileError, hf]
      · simp only [process_instance_data, hf]
        rw [ih]
        simp [fileRows, fileError, hf]

/-- C5: the pipeline processes files independently and in order — the
combined dataset is the concatenation, in file order, of the rows of the
files that processed cleanly, and each failing file appends exactly one
`"Error processing {fileName}: {message}"` entry to the error list; in
particular, when every file fails (or the list is empty) the dataset is
empty, never an error. -/
theorem C5_pipeline_error_isolation (files : List UploadedFile) (errors0 : List String) :
    process_instance_data files errors0 =
      ((files.map fileRows).flatten, errors0 ++ files.filterMap fileError) ∧
    ((∀ f ∈ files, ∃ m, process_file f = .error m) →
      (process_instance_data files errors0).1 = []) := by
  refine ⟨process_instance_data_eq files errors0, ?_⟩
  intro hall
  rw [process_instance_data_eq]
  show (files.map fileRows).flatten = []
  have : files.map fileRows = files.map (fun _ => []) := by
    apply List.map_congr_left
    intro f hf
    obtain ⟨m, hm⟩ := hall f hf
    simp [fileRows, hm]
  rw [this]
  simp

/-- C5 (witness): a batch consisting of a single empty file yields an
empty dataset and one formatted error. -/
theorem C5_witness :
    (process_instance_data [f_bad] []).1 = [] ∧
    process_instance_data [f_bad] [] =
      ([], ["Error processing bad.json: Error processing file: File is empty"]) := by
  constructor
  · exact (C5_pipeline_error_isolation [f_bad] []).2 (by
      intro f hf
      simp at hf
      subst hf
      exact ⟨_, rfl⟩)
  · rfl

theorem jsonWS_toNat {c : Char} (h : jsonWS c = true) : c.toNat ≤ 32 := by
  unfold jsonWS at h
  simp only [Bool.or_eq_true, beq_iff_eq] at h
  rcases h with ((h | h) | h) | h <;> subst h <;> decide

theorem not_jsonWS_of_toNat {c : Char} (h : 33 ≤ c.toNat) : jsonWS c = false := by
  cases hb : jsonWS c
  · rfl
  · have := jsonWS_toNat hb; omega

theorem skipWS_cons_not {c : Char} {cs : List Char} (h : jsonWS c = false) :
    skipWS (c :: cs) = c :: cs := by
  unfold skipWS
  rw [List.dropWhile_cons, h]
  simp

theorem skipWS_cons_ws {c : Char} {cs : List Char} (h : jsonWS c = true) :
    skipWS (c :: cs) = skipWS cs := by
  unfold skipWS
  rw [List.dropWhile_cons, h]
  simp

theorem stripLit_ne_head {lit : String} {lc : Char} {lrest : List Char}
    {c : Char} {cs : List Char} (hl : lit.data = lc :: lrest) (hne : c ≠ lc) :
    stripLit lit (c :: cs) = none := by
  unfold stripLit
  rw [hl]
  rw [if_neg]
  intro h
  have h2 := congrArg List.head? h
  simp at h2
  exact hne h2

theorem natCharsAux_head_ne_zero {fuel n : Nat} (h1 : 1 ≤ n) (hf : n < 10 ^ fuel) :
    ∀ c rest, natCharsAux fuel n = c :: rest → c ≠ '0' := by
  induction fuel generalizing n with
  | zero => simp at hf; omega
  | succ fuel ih =>
      intro c rest hc hz
      rw [natCharsAux] at hc
      by_cases h10 : n < 10
      · rw [if_pos h10] at hc
        have hcd : c = digitChar n := by
          have h2 := congrArg List.head? hc
          simpa using h2.symm
        have hv : (digitChar n).toNat = 48 + n := digitChar_toNat h10
        rw [← hcd, hz] at hv
        have h0 : ('0' : Char).toNat = 48 := by decide
        omega
      · rw [if_neg h10] at hc
        have hdiv1 : 1 ≤ n / 10 := Nat.one_le_div_iff (by omega) |>.mpr (by omega)
        have hdivf : n / 10 < 10 ^ fuel := by
          rw [pow_succ] at hf
          exact (Nat.div_lt_iff_lt_mul (by norm_num)).mpr hf
        rcases hl : natCharsAux fuel (n / 10) with _ | ⟨c0, l0⟩
        · have hfpos : 0 < fuel := by
            by_contra hz2
            have : fuel = 0 := by omega
            subst this
            simp at hdivf
            omega
          exact absurd hl (natCharsAux_ne_nil hfpos)
        · rw [hl] at hc
          have : c = c0 := by
            have h2 := congrArg List.head? hc
            simpa using h2.symm
          subst this
          exact ih hdiv1 hdivf c l0 hl hz

theorem natChars_head_ne_zero {n : Nat} (h : 1 ≤ n) :
    ∀ c rest, natChars n = c :: rest → c ≠ '0' :=
  natCharsAux_head_ne_zero h
    (lt_of_lt_of_le (Nat.lt_pow_self (by norm_num) n)
      (Nat.pow_le_pow_right (by norm_num) (by omega)))

theorem parseJNumCore_natChars (n : Nat) (rest : List Char)
    (hrest : ∀ c, rest.head? = some c → isDigitChar c = false) :
    parseJNumCore (natChars n ++ rest) = some (natChars n, (n : Int), rest) := by
  by_cases h0 : n = 0
  · subst h0
    have h00 : natChars 0 = ['0'] := rfl
    rw [h00]
    cases rest with
    | nil => rfl
    | cons c r =>
        have hcr := hrest c rfl
        simp [parseJNumCore, hcr]
  · rcases hnc : natChars n with _ | ⟨c, l⟩
    · exact absurd hnc (natChars_ne_nil n)
    · have hcd : 48 ≤ c.toNat ∧ c.toNat ≤ 57 :=
        natChars_digits c (by rw [hnc]; exact List.mem_cons_self _ _)
      have hcz : ¬(c = '0') := natChars_head_ne_zero (by omega) c l hnc
      have htd : takeDigits (natChars n ++ rest) = (natChars n, rest) :=
        takeDigits_append
          (fun x hx => isDigitChar_of_bounds (natChars_digits x hx)) hrest
      have hval : digitsToNat (natChars n) = n := digitsToNat_natChars n
      rw [hnc] at htd hval
      rw [List.cons_append] at htd
      simp [parseJNumCore, hcz, isDigitChar_of_bounds hcd]
      rw [htd]
      exact ⟨rfl, hval, rfl⟩

theorem scanFrac_not_dot {cs : List Char}
    (h : ∀ c, cs.head? = some c → c ≠ '.') : scanFrac cs = some ([], cs) := by
  cases cs with
  | nil => rfl
  | cons c r => simp [scanFrac, h c rfl]

theorem scanExp_not_e {cs : List Char}
    (h : ∀ c, cs.head? = some c → ¬(c = 'e' ∨ c = 'E')) :
    scanExp cs = some ([], cs) := by
  cases cs with
  | nil => rfl
  | cons c r => simp [scanExp, h c rfl]

/-- A separator character following a number inside a JSON array. -/
def jSep (c : Char) : Prop := c = ']' ∨ c = ','

theorem jSep_facts {c : Char} (h : jSep c) :
    isDigitChar c = false ∧ c ≠ '.' ∧ ¬(c = 'e' ∨ c = 'E') := by
  rcases h with h | h <;> subst h <;> refine ⟨by decide, by decide, by decide⟩

theorem parseJNum_intChars (i : Int) (rest : List Char)
    (hsep : ∀ c, rest.head? = some c → jSep c) :
    parseJNum (intChars i ++ rest) = some (.int i, rest) := by
  have hdig : ∀ c, rest.head? = some c → isDigitChar c = false :=
    fun c hc => (jSep_facts (hsep c hc)).1
  have hdot : ∀ c, rest.head? = some c → c ≠ '.' :=
    fun c hc => (jSep_facts (hsep c hc)).2.1
  have hee : ∀ c, rest.head? = some c → ¬(c = 'e' ∨ c = 'E') :=
    fun c hc => (jSep_facts (hsep c hc)).2.2
  by_cases h : i < 0
  · have hic : intChars i = '-' :: natChars i.natAbs := by
      unfold intChars
      rw [if_pos h]
    rcases hna : natChars i.natAbs with _ | ⟨c, l⟩
    · exact absurd hna (natChars_ne_nil _)
    · have hcd : 48 ≤ c.toNat ∧ c.toNat ≤ 57 :=
        natChars_digits c (by rw [hna]; exact List.mem_cons_self _ _)
      have hstrip : stripLit "Infinity" (natChars i.natAbs ++ rest) = none := by
        rw [hna, List.cons_append]
        refine stripLit_ne_head rfl ?_
        intro he
        rw [he] at hcd
        revert hcd
        decide
      have hcore := parseJNumCore_natChars i.natAbs rest hdig
      have habs : -((i.natAbs : Nat) : Int) = i := by omega
      rw [hic, List.cons_append]
      simp [parseJNum, hstrip, hcore, scanFrac_not_dot hdot, scanExp_not_e hee]
      rw [abs_of_neg h, neg_neg]
  · have hic : intChars i = natChars i.toNat := by
      unfold intChars
      rw [if_neg h]
    rcases hnc : natChars i.toNat with _ | ⟨c, l⟩
    · exact absurd hnc (natChars_ne_nil _)
    · have hcd : 48 ≤ c.toNat ∧ c.toNat ≤ 57 :=
        natChars_digits c (by rw [hnc]; exact List.mem_cons_self _ _)
      have hcm : ¬(c = '-') := by
        intro he
        rw [he] at hcd
        revert hcd
        decide
      have hcore := parseJNumCore_natChars i.toNat rest hdig
      have htn : ((i.toNat : Nat) : Int) = i := Int.toNat_of_nonneg (by omega)
      rw [hic]
      rw [hnc] at hcore ⊢
      rw [List.cons_append] at hcore ⊢
      simp [parseJNum, hcm, hcore, scanFrac_not_dot hdot, scanExp_not_e hee, htn]

/-- The head character of a serialized integer is no array/object/string
opener, no whitespace, no separator, and no literal head. -/
theorem numHead_facts {c : Char} (h : c = '-' ∨ (48 ≤ c.toNat ∧ c.toNat ≤ 57)) :
    c ≠ '[' ∧ c ≠ lbraceChar ∧ c ≠ '"' ∧ jsonWS c = false ∧ c ≠ ']' ∧ c ≠ ',' ∧
    c ≠ 't' ∧ c ≠ 'f' ∧ c ≠ 'n' ∧ c ≠ 'N' ∧ c ≠ 'I' := by
  rcases h with h | h
  · subst h
    refine ⟨by decide, by decide, by decide, by decide, by decide, by decide,
      by decide, by decide, by decide, by decide, by decide⟩
  · refine ⟨?_, ?_, ?_, not_jsonWS_of_toNat (by omega), ?_, ?_, ?_, ?_, ?_, ?_, ?_⟩ <;>
      (intro he; rw [he] at h; revert h; decide)

theorem parseJ_val_num (fuel : Nat) (i : Int) (rest : List Char)
    (hsep : ∀ c, rest.head? = some c → jSep c) :
    parseJ (fuel + 1) .val (intChars i ++ rest) = some (.val (.int i), rest) := by
  obtain ⟨c, l, hc, hcls⟩ := intChars_head i
  obtain ⟨h1, h2, h3, -, -, -, ht, hf, hn, hN, hI⟩ := numHead_facts hcls
  have hpn := parseJNum_intChars i rest hsep
  rw [hc] at hpn ⊢
  rw [List.cons_append] at hpn ⊢
  have hst : stripLit "true" (c :: (l ++ rest)) = none := stripLit_ne_head rfl ht
  have hsf : stripLit "false" (c :: (l ++ rest)) = none := stripLit_ne_head rfl hf
  have hsn : stripLit "null" (c :: (l ++ rest)) = none := stripLit_ne_head rfl hn
  have hsN : stripLit "NaN" (c :: (l ++ rest)) = none := stripLit_ne_head rfl hN
  have hsI : stripLit "Infinity" (c :: (l ++ rest)) = none := stripLit_ne_head rfl hI
  simp only [parseJ, if_neg h1, if_neg h2, if_neg h3, hst, hsf, hsn, hsN, hsI, hpn]

theorem parseJ_elems_ws {fuel : Nat} {c : Char} {cs : List Char}
    (h : jsonWS c = true) :
    parseJ (fuel + 1) .elems (c :: cs) = parseJ (fuel + 1) .elems cs := by
  simp only [parseJ, skipWS_cons_ws h]

theorem parseJ_elems_intArray (l : List Int) (i : Int) :
    ∀ fuel, l.length + 2 ≤ fuel →
    parseJ fuel .elems (commaJoinChars (i :: l) ++ [']']) =
      some (.elems ((i :: l).map PyVal.int), []) := by
  induction l generalizing i with
  | nil =>
      intro fuel hf
      obtain ⟨f, rfl⟩ : ∃ f, fuel = f + 1 := ⟨fuel - 1, by omega⟩
      obtain ⟨f2, rfl⟩ : ∃ f2, f = f2 + 1 := ⟨f - 1, by omega⟩
      show parseJ (f2 + 1 + 1) .elems (intChars i ++ [']']) = _
      obtain ⟨c, l0, hc, hcls⟩ := intChars_head i
      obtain ⟨-, -, -, hws, -, -, -, -, -, -, -⟩ := numHead_facts hcls
      have hskip : skipWS (intChars i ++ [']']) = intChars i ++ [']'] := by
        rw [hc, List.cons_append]
        exact skipWS_cons_not hws
      have hval := parseJ_val_num f2 i [']']
        (fun x hx => by
          simp at hx
          subst hx
          exact Or.inl rfl)
      conv_lhs => rw [parseJ]
      rw [hskip, hval]
      have hsk2 : skipWS [']'] = [']'] := by decide
      simp [hsk2]
  | cons j rest ih =>
      intro fuel hf
      obtain ⟨f, rfl⟩ : ∃ f, fuel = f + 1 := ⟨fuel - 1, by omega⟩
      obtain ⟨f2, rfl⟩ : ∃ f2, f = f2 + 1 := ⟨f - 1, by omega⟩
      show parseJ (f2 + 1 + 1) .elems
        (intChars i ++ ',' :: ' ' :: commaJoinChars (j :: rest) ++ [']']) = _
      have harr : intChars i ++ ',' :: ' ' :: commaJoinChars (j :: rest) ++ [']'] =
          intChars i ++ (',' :: ' ' :: (commaJoinChars (j :: rest) ++ [']'])) := by
        simp
      rw [harr]
      obtain ⟨c, l0, hc, hcls⟩ := intChars_head i
      obtain ⟨-, -, -, hws, -, -, -, -, -, -, -⟩ := numHead_facts hcls
      have hskip : skipWS (intChars i ++ (',' :: ' ' :: (commaJoinChars (j :: rest) ++ [']']))) =
          intChars i ++ (',' :: ' ' :: (commaJoinChars (j :: rest) ++ [']'])) := by
        rw [hc, List.cons_append]
        exact skipWS_cons_not hws
      have hsep2 : ∀ x, (',' :: ' ' :: (commaJoinChars (j :: rest) ++ [']'])).head? = some x →
          jSep x := by
        intro x hx
        simp at hx
        subst hx
        exact Or.inr rfl
      have hval := parseJ_val_num f2 i (',' :: ' ' :: (commaJoinChars (j :: rest) ++ [']'])) hsep2
      have hrec : parseJ (f2 + 1) .elems (' ' :: (commaJoinChars (j :: rest) ++ [']'])) =
          some (.elems ((j :: rest).map PyVal.int), []) := by
        simp only [List.length_cons] at hf
        rw [parseJ_elems_ws (by decide)]
        exact ih j (f2 + 1) (by omega)
      conv_lhs => rw [parseJ]
      rw [hskip, hval]
      have hsk2 : skipWS (',' :: ' ' :: (commaJoinChars (j :: rest) ++ [']'])) =
          ',' :: ' ' :: (commaJoinChars (j :: rest) ++ [']']) :=
        skipWS_cons_not (by decide)
      simp [hsk2, hrec]

theorem commaJoinChars_length (i : Int) (l : List Int) :
    l.length + 1 ≤ (commaJoinChars (i :: l)).length := by
  induction l generalizing i with
  | nil =>
      show 1 ≤ (intChars i).length
      rcases h : intChars i with _ | ⟨c, r⟩
      · exact absurd h (intChars_ne_nil i)
      · simp
  | cons j rest ih =>
      show rest.length + 2 ≤ (intChars i ++ ',' :: ' ' :: commaJoinChars (j :: rest)).length
      have h1 := ih j
      have h2 : 1 ≤ (intChars i).length := by
        rcases h : intChars i with _ | ⟨c, r⟩
        · exact absurd h (intChars_ne_nil i)
        · simp
      simp only [List.length_append, List.length_cons]
      omega

theorem pyJsonLoads_intArray (l : List Int) :
    pyJsonLoads (jsonIntArrayStr l) = some (.list (l.map PyVal.int)) := by
  cases l with
  | nil => rfl
  | cons i l' =>
      have hdata : (jsonIntArrayStr (i :: l')).data =
          '[' :: (commaJoinChars (i :: l') ++ [']']) := rfl
      unfold pyJsonLoads
      rw [hdata]
      rw [skipWS_cons_not (by decide)]
      have hlen := commaJoinChars_length i l'
      obtain ⟨F, hF⟩ : ∃ F, 2 * ('[' :: (commaJoinChars (i :: l') ++ [']'])).length + 2 =
          F + 1 := ⟨_, rfl⟩
      rw [hF]
      obtain ⟨c, l0, hc, hcls⟩ := commaJoinChars_head i l'
      obtain ⟨-, -, -, hws, hrb, -, -, -, -, -, -⟩ := numHead_facts hcls
      have hskip : skipWS (commaJoinChars (i :: l') ++ [']']) =
          commaJoinChars (i :: l') ++ [']'] := by
        rw [hc, List.cons_append]
        exact skipWS_cons_not hws
      have helems : parseJ F .elems (commaJoinChars (i :: l') ++ [']']) =
          some (.elems ((i :: l').map PyVal.int), []) := by
        apply parseJ_elems_intArray l' i F
        simp only [List.length_cons, List.length_append] at hF
        omega
      have helems2 := helems
      rw [hc, List.cons_append] at helems2
      have hskip2 : skipWS (commaJoinChars (i :: l') ++ [']']) = c :: (l0 ++ [']']) := by
        rw [hskip, hc, List.cons_append]
      conv_lhs => rw [parseJ]
      simp [hskip2, hrb, helems2]
      rfl

theorem parseJStrChars_append {s rest : List Char}
    (h : ∀ c ∈ s, jsonPlainChar c = true) :
    parseJStrChars (s ++ '"' :: rest) = some (s, rest) := by
  induction s with
  | nil => rfl
  | cons c cs ih =>
      have hc := h c (by simp)
      have ih' := ih (fun x hx => h x (by simp [hx]))
      unfold jsonPlainChar at hc
      simp only [Bool.and_eq_true, bne_iff_ne, decide_eq_true_eq] at hc
      obtain ⟨⟨hq, hb⟩, hctl⟩ := hc
      show parseJStrChars (c :: (cs ++ '"' :: rest)) = some (c :: cs, rest)
      unfold parseJStrChars
      rw [if_neg hq, if_neg hb, if_neg (by omega), ih']

theorem parseJ_val_str (fuel : Nat) (s : String) (rest : List Char)
    (h : ∀ c ∈ s.data, jsonPlainChar c = true) :
    parseJ (fuel + 1) .val (quotedChars s ++ rest) = some (.val (.str s), rest) := by
  have hstr : parseJStrChars (s.data ++ '"' :: rest) = some (s.data, rest) :=
    parseJStrChars_append h
  have hshape : quotedChars s ++ rest = '"' :: (s.data ++ '"' :: rest) := by
    show ('"' :: s.data ++ ['"']) ++ rest = _
    simp
  rw [hshape]
  simp [parseJ, hstr]
  intro hcontra
  exact absurd hcontra (by decide)

theorem strHead_not_special :
    ('"' : Char) ≠ '[' ∧ ('"' : Char) ≠ lbraceChar ∧ jsonWS '"' = false ∧
    ('"' : Char) ≠ ']' ∧ ('"' : Char) ≠ ',' := by
  refine ⟨by decide, by decide, by decide, by decide, by decide⟩

theorem parseJ_elems_strArray (ss : List String) (s : String) :
    ∀ fuel, ss.length + 2 ≤ fuel →
    (∀ t ∈ s :: ss, ∀ c ∈ t.data, jsonPlainChar c = true) →
    parseJ fuel .elems (strArrayChars (s :: ss) ++ [']']) =
      some (.elems ((s :: ss).map PyVal.str), []) := by
  induction ss generalizing s with
  | nil =>
      intro fuel hf hpl
      obtain ⟨f, rfl⟩ : ∃ f, fuel = f + 1 := ⟨fuel - 1, by omega⟩
      obtain ⟨f2, rfl⟩ : ∃ f2, f = f2 + 1 := ⟨f - 1, by omega⟩
      show parseJ (f2 + 1 + 1) .elems (quotedChars s ++ [']']) = _
      have hshape0 : quotedChars s ++ [']'] = '"' :: (s.data ++ '"' :: [']']) := by
        show ('"' :: s.data ++ ['"']) ++ [']'] = _
        simp
      have hskip : skipWS (quotedChars s ++ [']']) = quotedChars s ++ [']'] := by
        rw [hshape0, skipWS_cons_not (by decide)]
      have hval := parseJ_val_str f2 s [']'] (hpl s (by simp))
      conv_lhs => rw [parseJ]
      rw [hskip, hval]
      have hsk2 : skipWS [']'] = [']'] := by decide
      simp [hsk2]
  | cons t ss' ih =>
      intro fuel hf hpl
      obtain ⟨f, rfl⟩ : ∃ f, fuel = f + 1 := ⟨fuel - 1, by omega⟩
      obtain ⟨f2, rfl⟩ : ∃ f2, f = f2 + 1 := ⟨f - 1, by omega⟩
      show parseJ (f2 + 1 + 1) .elems
        (quotedChars s ++ ',' :: ' ' :: strArrayChars (t :: ss') ++ [']']) = _
      have harr : quotedChars s ++ ',' :: ' ' :: strArrayChars (t :: ss') ++ [']'] =
          quotedChars s ++ (',' :: ' ' :: (strArrayChars (t :: ss') ++ [']'])) := by
        simp
      rw [harr]
      have hshape : quotedChars s ++ (',' :: ' ' :: (strArrayChars (t :: ss') ++ [']'])) =
          '"' :: (s.data ++ '"' :: ',' :: ' ' :: (strArrayChars (t :: ss') ++ [']'])) := by
        show ('"' :: s.data ++ ['"']) ++ _ = _
        simp
      have hskip : skipWS (quotedChars s ++ (',' :: ' ' :: (strArrayChars (t :: ss') ++ [']']))) =
          quotedChars s ++ (',' :: ' ' :: (strArrayChars (t :: ss') ++ [']'])) := by
        rw [hshape, skipWS_cons_not (by decide)]
      have hval := parseJ_val_str f2 s (',' :: ' ' :: (strArrayChars (t :: ss') ++ [']']))
        (hpl s (by simp))
      have hrec : parseJ (f2 + 1) .elems (' ' :: (strArrayChars (t :: ss') ++ [']'])) =
          some (.elems ((t :: ss').map PyVal.str), []) := by
        simp only [List.length_cons] at hf
        rw [parseJ_elems_ws (by decide)]
        exact ih t (f2 + 1) (by omega) (fun x hx => hpl x (by simp at hx ⊢; tauto))
      conv_lhs => rw [parseJ]
      rw [hskip, hval]
      have hsk2 : skipWS (',' :: ' ' :: (strArrayChars (t :: ss') ++ [']'])) =
          ',' :: ' ' :: (strArrayChars (t :: ss') ++ [']']) :=
        skipWS_cons_not (by decide)
      simp [hsk2, hrec]

theorem strArrayChars_length (s : String) (ss : List String) :
    ss.length + 2 ≤ (strArrayChars (s :: ss)).length := by
  induction ss generalizing s with
  | nil =>
      show 2 ≤ (quotedChars s).length
      show 2 ≤ ('"' :: s.data ++ ['"']).length
      simp
  | cons t ss' ih =>
      show ss'.length + 3 ≤ (quotedChars s ++ ',' :: ' ' :: strArrayChars (t :: ss')).length
      have h1 := ih t
      have h2 : 2 ≤ (quotedChars s).length := by
        show 2 ≤ ('"' :: s.data ++ ['"']).length
        simp
      simp only [List.length_append, List.length_cons]
      omega

theorem strArrayChars_head (s : String) (ss : List String) :
    ∃ r, strArrayChars (s :: ss) = '"' :: r := by
  cases ss with
  | nil => exact ⟨s.data ++ ['"'], rfl⟩
  | cons t ss' =>
      exact ⟨s.data ++ ['"'] ++ ',' :: ' ' :: strArrayChars (t :: ss'), rfl⟩

theorem pyJsonLoads_strArray (ss : List String)
    (hpl : ∀ t ∈ ss, ∀ c ∈ t.data, jsonPlainChar c = true) :
    pyJsonLoads (jsonStrArrayStr ss) = some (.list (ss.map PyVal.str)) := by
  cases ss with
  | nil => rfl
  | cons s ss' =>
      have hdata : (jsonStrArrayStr (s :: ss')).data =
          '[' :: (strArrayChars (s :: ss') ++ [']']) := rfl
      unfold pyJsonLoads
      rw [hdata]
      rw [skipWS_cons_not (by decide)]
      have hlen := strArrayChars_length s ss'
      obtain ⟨F, hF⟩ : ∃ F, 2 * ('[' :: (strArrayChars (s :: ss') ++ [']'])).length + 2 =
          F + 1 := ⟨_, rfl⟩
      rw [hF]
      obtain ⟨l0, hc⟩ := strArrayChars_head s ss'
      have hskip : skipWS (strArrayChars (s :: ss') ++ [']']) =
          strArrayChars (s :: ss') ++ [']'] := by
        rw [hc, List.cons_append]
        exact skipWS_cons_not (by decide)
      have helems : parseJ F .elems (strArrayChars (s :: ss') ++ [']']) =
          some (.elems ((s :: ss').map PyVal.str), []) := by
        apply parseJ_elems_strArray ss' s F ?_ hpl
        simp only [List.length_cons, List.length_append] at hF
        omega
      have helems2 := helems
      rw [hc, List.cons_append] at helems2
      have hskip2 : skipWS (strArrayChars (s :: ss') ++ [']']) = '"' :: (l0 ++ [']']) := by
        rw [hskip, hc, List.cons_append]
      conv_lhs => rw [parseJ]
      simp [hskip2, helems2]
      rfl

theorem pyStarts_bracket (x : String) (inner : List Char)
    (h : x.data = '[' :: inner) : pyStarts x "[" = true := by
  unfold pyStarts
  apply decide_eq_true
  rw [h]
  rfl

theorem pyEnds_bracket (x : String) (inner : List Char)
    (h : x.data = inner ++ [']']) : pyEnds x "]" = true := by
  unfold pyEnds
  apply decide_eq_true
  show (x.data.reverse).take 1 = [']']
  rw [h, List.reverse_append]
  rfl

theorem jsonStrArrayStr_ne_sentinels (ss : List String) :
    ¬(jsonStrArrayStr ss = "" ∨ jsonStrArrayStr ss = "nan" ∨ jsonStrArrayStr ss = "None") := by
  intro h
  have hdata : (jsonStrArrayStr ss).data = '[' :: (strArrayChars ss ++ [']']) := rfl
  rcases h with h | h | h <;>
    · have hd := congrArg String.data h
      rw [hdata] at hd
      simp at hd

/-- `safe_convert_ports` rebuilds the comma-joined form from a
JSON-array-encoded integer list. -/
theorem safe_convert_ports_jsonEnc (l : List Int) :
    safe_convert_ports (jsonIntArrayStr l) = commaJoin l := by
  unfold safe_convert_ports
  rw [if_neg (jsonIntArrayStr_ne_sentinels l)]
  have hcond : (pyStarts (jsonIntArrayStr l) "[" && pyEnds (jsonIntArrayStr l) "]") = true := by
    rw [pyStarts_bracket (jsonIntArrayStr l) (commaJoinChars l ++ [']']) rfl,
      pyEnds_bracket (jsonIntArrayStr l) ('[' :: commaJoinChars l) rfl]
    rfl
  rw [if_pos hcond, pyJsonLoads_intArray]
  show joinCommaSpace ((l.map PyVal.int).map pyStr) = commaJoin l
  rw [List.map_map]
  have h : (pyStr ∘ PyVal.int) = intStr := by
    funext n
    show pyStr (.int n) = intStr n
    rfl
  rw [h, joinCommaSpace_map_intStr]

/-- `safe_convert_ports` rebuilds the `', '.join(map(str, ...))` form
from a JSON-array-encoded string list. -/
theorem safe_convert_ports_strArray (ss : List String)
    (hpl : ∀ t ∈ ss, ∀ c ∈ t.data, jsonPlainChar c = true) :
    safe_convert_ports (jsonStrArrayStr ss) = joinCommaSpace ss := by
  unfold safe_convert_ports
  rw [if_neg (jsonStrArrayStr_ne_sentinels ss)]
  have hcond : (pyStarts (jsonStrArrayStr ss) "[" && pyEnds (jsonStrArrayStr ss) "]") = true := by
    rw [pyStarts_bracket (jsonStrArrayStr ss) (strArrayChars ss ++ [']']) rfl,
      pyEnds_bracket (jsonStrArrayStr ss) ('[' :: strArrayChars ss) rfl]
    rfl
  rw [if_pos hcond, pyJsonLoads_strArray ss hpl]
  show joinCommaSpace ((ss.map PyVal.str).map pyStr) = joinCommaSpace ss
  rw [List.map_map]
  have h : (pyStr ∘ PyVal.str) = id := by
    funext s
    show pyStr (.str s) = s
    rfl
  rw [h, List.map_id]

/-- C8 (counterexample): `"garbage"` is neither a JSON-array-encoded
string nor an already comma-joined integer string, yet
`safe_convert_ports` returns it unchanged instead of mapping it to the
empty string. -/
theorem C8_counterexample_garbage_returned_as_is :
    safe_convert_ports "garbage" = "garbage" ∧
    "garbage" ≠ "" ∧
    pyStarts "garbage" "[" = false ∧
    (∀ l : List Int, commaJoin l ≠ "garbage") := by
  refine ⟨by decide, by decide, by decide, ?_⟩
  intro l h
  cases l with
  | nil => exact absurd h (by decide)
  | cons i l' =>
      obtain ⟨c, rest, hdata, hlo, hhi⟩ := commaJoin_head i l'
      have hd := congrArg String.data h
      rw [hdata] at hd
      have hc : c = 'g' := by
        have h2 := congrArg (fun t => t.head?) hd
        simpa using h2
      subst hc
      exact absurd hhi (by decide)

/-- C8 (amended): `safe_convert_ports` rebuilds the comma-joined
representation from a JSON-array-encoded integer list and returns an
already comma-joined integer string unchanged; any bracket-shaped value
that `json.loads` parses to an array is re-joined from the `str(...)` of
its elements (so `"[1.5]"` yields `"1.5"` and a JSON string array yields
the join of its strings); the falsy sentinels `""`, `"nan"`, `"None"`
and bracket-shaped values on which the parse fails yield `""`; but a
value that is none of those shapes is returned as-is, not mapped to the
empty string. -/
theorem C8_amended_ports_reconstruction :
    (∀ l : List Int, safe_convert_ports (jsonIntArrayStr l) = commaJoin l) ∧
    (∀ l : List Int, safe_convert_ports (commaJoin l) = commaJoin l) ∧
    (safe_convert_ports "" = "" ∧ safe_convert_ports "nan" = "" ∧
      safe_convert_ports "None" = "") ∧
    (∀ ss : List String, (∀ t ∈ ss, ∀ c ∈ t.data, jsonPlainChar c = true) →
      safe_convert_ports (jsonStrArrayStr ss) = joinCommaSpace ss) ∧
    (safe_convert_ports "[1.5]" = "1.5" ∧
      safe_convert_ports "[true, null]" = "True, None") ∧
    (∀ x : String, (∀ c ∈ x.data, c ≠ '\\') →
      ¬(x = "" ∨ x = "nan" ∨ x = "None") →
      (pyStarts x "[" && pyEnds x "]") = true → pyJsonLoads x = none →
      safe_convert_ports x = "") ∧
    (∀ x : String, ¬(x = "" ∨ x = "nan" ∨ x = "None") →
      (pyStarts x "[" && pyEnds x "]") = false →
      safe_convert_ports x = x) := by
  refine ⟨safe_convert_ports_jsonEnc, safe_convert_ports_commaJoin,
    ⟨rfl, rfl, rfl⟩, safe_convert_ports_strArray, ⟨by decide, by decide⟩, ?_, ?_⟩
  · intro x hbs hs hb hp
    unfold safe_convert_ports
    rw [if_neg hs, if_pos hb, hp]
  · intro x hs hb
    unfold safe_convert_ports
    rw [if_neg hs, if_neg (by simp [hb])]

/-- C8 (witness): the amended theorem at concrete stored values —
`json.dumps([80, 443])` is rebuilt to `"80, 443"`, the JSON string array
for `a`, `b` to `"a, b"`, and the unparsable bracket-shaped `"[oops]"`
collapses to `""`. -/
theorem C8_witness :
    safe_convert_ports (jsonIntArrayStr [80, 443]) = "80, 443" ∧
    safe_convert_ports (jsonStrArrayStr ["a", "b"]) = "a, b" ∧
    safe_convert_ports "[oops]" = "" := by
  obtain ⟨h1, -, -, h4, -, h6, -⟩ := C8_amended_ports_reconstruction
  refine ⟨?_, ?_, ?_⟩
  · rw [h1 [80, 443]]
    decide
  · rw [h4 ["a", "b"] (by decide)]
    decide
  · exact h6 "[oops]" (by decide) (by decide) (by decide) (by rfl)
